import Mathlib

/-!
# FST Manager, rate upgrade (`fst_rateupg.c`)

A shallow embedding of the rate-upgrade group and MAC lifecycle manager.

* The two intrusive lists (`g_rateupg_mgr.groups`, `g->acl_macs`) are Lean lists in
  list order; a node pointer is the position of the node in its list.
* The external collaborators (configuration getters, allocator, `fopen`/`fprintf`/`fclose`,
  the four interface driver operations) are not part of the translation unit.  What
  each of them answers during one call of an entry point is given by an `Env` record,
  so every theorem that quantifies over `Env` holds for every behaviour of the
  collaborators.
* Every entry point returns a `Result`: the C return value, the next state, the
  driver operations invoked (in order) and the stdio operations attempted (in order).
-/

namespace FstRateUpg

/-! ## Basic data -/

/-- An octet (`u8`). -/
abbrev u8 := Fin 256

/-- The array `u8 addr[ETH_ALEN]`, with `ETH_ALEN = 6`. -/
structure MacAddr where
  o0 : u8
  o1 : u8
  o2 : u8
  o3 : u8
  o4 : u8
  o5 : u8
deriving DecidableEq, Repr

/-- The six octets of an address in memory order. -/
def MacAddr.bytes (m : MacAddr) : List u8 := [m.o0, m.o1, m.o2, m.o3, m.o4, m.o5]

/-- Number of octets of an address. -/
def ETH_ALEN : Nat := 6

/-- The part of `struct fst_group_info` used by the rate-upgrade code: the group id. -/
structure fst_group_info where
  id : String
deriving DecidableEq, Repr

/-- The part of `struct fst_iface_info` used by the rate-upgrade code: the interface name. -/
structure fst_iface_info where
  name : String
deriving DecidableEq, Repr, Inhabited

/-- The record `struct rate_upgrade_group`.  `slave_cnt` is the length of `slaves`;
`acl_macs` is the MAC list in list order; `lentry` is the position in the registry. -/
structure rate_upgrade_group where
  groupname : String
  master : String
  acl_fname : Option String
  slaves : List fst_iface_info
  acl_macs : List MacAddr
deriving DecidableEq, Repr

/-- The field `slave_cnt` of a registered group. -/
def rate_upgrade_group.slave_cnt (g : rate_upgrade_group) : Int := g.slaves.length

/-- The file system as far as the code sees it: the content of each named file, `none`
when the file does not exist. -/
abbrev Files := String → Option (List Char)

/-- Replace the content of one file. -/
def Files.write (fs : Files) (fname : String) (content : List Char) : Files :=
  fun x => if x = fname then some content else fs x

/-- The global variables of `fst_rateupg.c` (`g_rateupg_mgr.iniconf`,
`g_rateupg_mgr.groups`, `g_rateupg_mgr_initialized`) together with the file system. -/
structure State where
  iniconf : Nat
  groups : List rate_upgrade_group
  initialized : Bool
  files : Files

/-- One invocation of an interface driver operation, with the index of the slave in the
group's `slaves` array next to the descriptor passed by address. -/
inductive DriverCall where
  | add_iface (master : String) (i : Nat) (slave : fst_iface_info) (acl_fname : Option String)
  | del_iface (i : Nat) (slave : fst_iface_info)
  | dup_connection (i : Nat) (slave : fst_iface_info) (master : String) (addr : MacAddr)
      (acl_fname : Option String)
  | dedup_connection (i : Nat) (slave : fst_iface_info) (acl_fname : Option String)
deriving DecidableEq, Repr

/-- One stdio operation attempted on the ACL file. -/
inductive FileOp where
  | fopen (fname : String)
  | fprintf (fname : String) (line : List Char)
  | fclose (fname : String)
deriving DecidableEq, Repr

/-- What the external collaborators answer during one call of an entry point.

* `master`, `acl_fname`, `slave_ifaces`: results of the three configuration getters
  (`slave_ifaces = none` is a negative count, `some l` is the count `l.length` with the
  array `l`);
* `is_supplicant`: result of `fst_is_supplicant ()`;
* `malloc_group`, `strdup_groupname`, `malloc_mac`: whether the allocation succeeds;
* `fopen_ok`: whether `fopen (acl_fname, "w")` succeeds; `fprintf_ok i`: whether the
  `fprintf` of line `i` returns a positive count;
* `fclose_ok`: whether `fclose` succeeds, that is whether the text the stream accepted
  is flushed to the file; `fclose_flushed`: when it does not, how many characters of
  that text have reached the file;
* the four driver results, by slave index (each entry point invokes each operation at
  most once per slave). -/
structure Env where
  master : Option String
  is_supplicant : Bool
  acl_fname : Option String
  slave_ifaces : Option (List fst_iface_info)
  malloc_group : Bool
  strdup_groupname : Bool
  malloc_mac : Bool
  fopen_ok : Bool
  fprintf_ok : Nat → Bool
  fclose_ok : Bool
  fclose_flushed : Nat
  fst_add_iface : Nat → Int
  fst_del_iface : Nat → Int
  fst_dup_connection : Nat → Int
  fst_dedup_connection : Nat → Int

/-- What one call of an entry point does. -/
structure Result where
  ret : Int
  st : State
  calls : List DriverCall
  fileops : List FileOp

/-! ## libc helpers -/

/-- The comparison `strncmp (a, b, n)` on the characters before the terminator: zero iff the
strings agree on their first `n` characters or are equal before that. -/
def strncmp : List Char → List Char → Nat → Int
  | _, _, 0 => 0
  | [], [], _ + 1 => 0
  | [], c :: _, _ + 1 => - (c.toNat : Int)
  | c :: _, [], _ + 1 => (c.toNat : Int)
  | a :: as, b :: bs, n + 1 => if a = b then strncmp as bs n else (a.toNat : Int) - b.toNat

/-- The comparison `os_strcmp (a, b)`. -/
def os_strcmp : List Char → List Char → Int
  | [], [] => 0
  | [], c :: _ => - (c.toNat : Int)
  | c :: _, [] => (c.toNat : Int)
  | a :: as, b :: bs => if a = b then os_strcmp as bs else (a.toNat : Int) - b.toNat

/-- The comparison `os_memcmp (a, b, n)` on two arrays of at least `n` octets. -/
def os_memcmp : List u8 → List u8 → Nat → Int
  | a :: as, b :: bs, n + 1 => if a = b then os_memcmp as bs n else (a.val : Int) - b.val
  | _, _, _ => 0

/-! ## ACL file -/

/-- Modelled from the spec: the conversion `%02x` of the absent macro `MACSTR`
("canonical lowercase colon-separated hex octets"), one hexadecimal digit. -/
def hex_digit (n : Nat) : Char :=
  match n with
  | 0 => '0' | 1 => '1' | 2 => '2' | 3 => '3' | 4 => '4' | 5 => '5' | 6 => '6' | 7 => '7'
  | 8 => '8' | 9 => '9' | 10 => 'a' | 11 => 'b' | 12 => 'c' | 13 => 'd' | 14 => 'e'
  | _ => 'f'

/-- Modelled from the spec: the conversion `%02x` of one octet. -/
def fmt_02x (b : u8) : List Char := [hex_digit (b.val / 16), hex_digit (b.val % 16)]

/-- Modelled from the spec: the text the absent macros `MACSTR`, `MAC2STR (addr)` format,
`xx:xx:xx:xx:xx:xx` with lowercase hexadecimal octets. -/
def mac_str (m : MacAddr) : List Char :=
  fmt_02x m.o0 ++ [':'] ++ fmt_02x m.o1 ++ [':'] ++ fmt_02x m.o2 ++ [':'] ++
  fmt_02x m.o3 ++ [':'] ++ fmt_02x m.o4 ++ [':'] ++ fmt_02x m.o5

/-- The text `fprintf (f, MACSTR "\n", MAC2STR (p->addr))` writes. -/
def mac_line (m : MacAddr) : List Char := mac_str m ++ ['\n']

/-- The serialization of an Entry Store: one line per MAC in list order. -/
def acl_content : List MacAddr → List Char
  | [] => []
  | p :: rest => mac_line p ++ acl_content rest

/-- The loop of `update_acl_file`: one `fprintf` per MAC from line `i` on, leaving the loop
at the first `fprintf` that does not return a positive count.  Gives whether every line
was accepted, the text accepted by the stream, and the operations attempted. -/
def write_acl_lines (env : Env) (fname : String) :
    Nat → List MacAddr → Bool × List Char × List FileOp
  | _, [] => (true, [], [])
  | i, p :: rest =>
    if env.fprintf_ok i then
      let r := write_acl_lines env fname (i + 1) rest
      (r.1, mac_line p ++ r.2.1, FileOp.fprintf fname (mac_line p) :: r.2.2)
    else (false, [], [FileOp.fprintf fname (mac_line p)])

/-- The function `update_acl_file`: nothing to do without a file name; otherwise open for
writing (which creates or truncates the file), write the lines, close.  The stream is
buffered: the text accepted by `fprintf` reaches the file when the stream is flushed, at
the latest in `fclose`, and the result of `fclose` is discarded, so the return value is `0`
as soon as `fopen` and every `fprintf` succeeded.  Gives the return value, the file system
afterwards and the operations attempted. -/
def update_acl_file (env : Env) (files : Files) (g : rate_upgrade_group) :
    Int × Files × List FileOp :=
  match g.acl_fname with
  | none => (0, files, [])
  | some fname =>
    if env.fopen_ok then
      let r := write_acl_lines env fname 0 g.acl_macs
      (if r.1 then 0 else -1,
        files.write fname (if env.fclose_ok then r.2.1 else r.2.1.take env.fclose_flushed),
        FileOp.fopen fname :: (r.2.2 ++ [FileOp.fclose fname]))
    else (-1, files, [FileOp.fopen fname])

/-! ## Lookups and list primitives -/

/-- The traversal `dl_list_for_each` with an early `return`: position and content of the
first node that satisfies `p`, `none` when the traversal ends without one. -/
def dl_list_find {α : Type} (p : α → Bool) : List α → Option (Nat × α)
  | [] => none
  | a :: as =>
    if p a then some (0, a) else (dl_list_find p as).map (fun r => (r.1 + 1, r.2))

/-- The function `find_rate_upgrade_mac`: the first node of `g->acl_macs` whose address
compares equal over `ETH_ALEN` octets. -/
def find_rate_upgrade_mac (g : rate_upgrade_group) (addr : MacAddr) : Option Nat :=
  (dl_list_find (fun p => decide (os_memcmp p.bytes addr.bytes ETH_ALEN = 0)) g.acl_macs).map
    Prod.fst

/-- The function `add_rate_upgrade_mac`: allocate a node, copy the address, add it at the
tail.  Gives the new node and the group afterwards, `none` when the allocation fails. -/
def add_rate_upgrade_mac (env : Env) (g : rate_upgrade_group) (addr : MacAddr) :
    Option (Nat × rate_upgrade_group) :=
  if env.malloc_mac then
    some (g.acl_macs.length, { g with acl_macs := g.acl_macs ++ [addr] })
  else none

/-- The function `del_rate_upgrade_mac`: unlink node `p` from the MAC list. -/
def del_rate_upgrade_mac (g : rate_upgrade_group) (p : Nat) : rate_upgrade_group :=
  { g with acl_macs := g.acl_macs.eraseIdx p }

/-- The function `find_rate_upgrade_group`: the first group of the registry with
`strncmp (g->groupname, name, strlen (name)) == 0`. -/
def find_rate_upgrade_group (groups : List rate_upgrade_group) (name : String) :
    Option (Nat × rate_upgrade_group) :=
  dl_list_find (fun g => decide (strncmp g.groupname.data name.data name.data.length = 0)) groups

/-- The loop of `fst_rate_upgrade_deinit`: while the registry is not empty, take its first
group out (`deinit_rate_upgrade_group`). -/
def deinit_groups : List rate_upgrade_group → List rate_upgrade_group
  | [] => []
  | _ :: rest => deinit_groups rest

/-! ## Driver loops -/

/-- The loop `for (i = 0; i < g->slave_cnt; i++) if (fst_add_iface (...)) goto error_add;`
from index `i` on: the operations invoked and the index at which the loop was left, if any. -/
def add_iface_loop (env : Env) (master : String) (acl_fname : Option String) :
    Nat → List fst_iface_info → List DriverCall × Option Nat
  | _, [] => ([], none)
  | i, s :: rest =>
    if env.fst_add_iface i ≠ 0 then ([DriverCall.add_iface master i s acl_fname], some i)
    else
      let r := add_iface_loop env master acl_fname (i + 1) rest
      (DriverCall.add_iface master i s acl_fname :: r.1, r.2)

/-- The loop `while (i-- > 0) fst_del_iface (&ifaces[i]);` entered with the value `i`. -/
def del_iface_unwind (ifaces : List fst_iface_info) : Nat → List DriverCall
  | 0 => []
  | i + 1 => DriverCall.del_iface i (ifaces.getD i default) :: del_iface_unwind ifaces i

/-- The loop of `fst_rate_upgrade_del_group` from index `i` on: `fst_del_iface` on every
slave; a failure is logged and the loop goes on. -/
def del_iface_loop : Nat → List fst_iface_info → List DriverCall
  | _, [] => []
  | i, s :: rest => DriverCall.del_iface i s :: del_iface_loop (i + 1) rest

/-- The loop `for (...) if (fst_dup_connection (...)) goto error_connect;` from index `i`
on: the operations invoked and the index at which the loop was left, if any. -/
def dup_connection_loop (env : Env) (master : String) (addr : MacAddr)
    (acl_fname : Option String) : Nat → List fst_iface_info → List DriverCall × Option Nat
  | _, [] => ([], none)
  | i, s :: rest =>
    if env.fst_dup_connection i ≠ 0 then
      ([DriverCall.dup_connection i s master addr acl_fname], some i)
    else
      let r := dup_connection_loop env master addr acl_fname (i + 1) rest
      (DriverCall.dup_connection i s master addr acl_fname :: r.1, r.2)

/-- The loop `while (i-- > 0) fst_dedup_connection (&g->slaves[i], g->acl_fname);` entered
with the value `i`. -/
def dedup_connection_unwind (slaves : List fst_iface_info) (acl_fname : Option String) :
    Nat → List DriverCall
  | 0 => []
  | i + 1 =>
    DriverCall.dedup_connection i (slaves.getD i default) acl_fname ::
      dedup_connection_unwind slaves acl_fname i

/-- The loop of `fst_rate_upgrade_on_disconnect` from index `i` on, entered with the value
`res`: `fst_dedup_connection` on every slave, `res = -1` after a failure. -/
def dedup_connection_loop (env : Env) (acl_fname : Option String) :
    Nat → List fst_iface_info → Int → List DriverCall × Int
  | _, [], res => ([], res)
  | i, s :: rest, res =>
    let r := dedup_connection_loop env acl_fname (i + 1) rest
      (if env.fst_dedup_connection i ≠ 0 then -1 else res)
    (DriverCall.dedup_connection i s acl_fname :: r.1, r.2)

/-! ## Entry points -/

/-- The function `fst_rate_upgrade_init`. -/
def fst_rate_upgrade_init (s : State) (h : Nat) : Result :=
  ⟨0, { s with iniconf := h, groups := [], initialized := true }, [], []⟩

/-- The function `fst_rate_upgrade_deinit` (a `void` function: `ret` is 0). -/
def fst_rate_upgrade_deinit (s : State) : Result :=
  if s.initialized then
    ⟨0, { s with groups := deinit_groups s.groups, initialized := false }, [], []⟩
  else ⟨0, s, [], []⟩

/-- The function `fst_rate_upgrade_add_group`. -/
def fst_rate_upgrade_add_group (env : Env) (s : State) (group : fst_group_info) : Result :=
  match find_rate_upgrade_group s.groups group.id with
  | some _ => ⟨0, s, [], []⟩
  | none =>
    match env.master with
    | none => ⟨0, s, [], []⟩
    | some master =>
      let acl_fname := if env.is_supplicant then none else env.acl_fname
      if !env.malloc_group then ⟨-1, s, [], []⟩
      else if !env.strdup_groupname then ⟨-1, s, [], []⟩
      else
        match env.slave_ifaces with
        | none => ⟨-1, s, [], []⟩
        | some [] => ⟨-1, s, [], []⟩
        | some (i0 :: irest) =>
          let ifaces := i0 :: irest
          let g : rate_upgrade_group :=
            { groupname := group.id, master := master, acl_fname := acl_fname,
              slaves := ifaces, acl_macs := [] }
          let u := update_acl_file env s.files g
          if u.1 ≠ 0 then ⟨-1, { s with files := u.2.1 }, [], u.2.2⟩
          else
            let a := add_iface_loop env master g.acl_fname 0 ifaces
            match a.2 with
            | some i =>
              ⟨-1, { s with files := u.2.1 }, a.1 ++ del_iface_unwind ifaces i, u.2.2⟩
            | none =>
              ⟨0, { s with files := u.2.1, groups := s.groups ++ [g] }, a.1, u.2.2⟩

/-- The function `fst_rate_upgrade_del_group`. -/
def fst_rate_upgrade_del_group (s : State) (group : fst_group_info) : Result :=
  match find_rate_upgrade_group s.groups group.id with
  | none => ⟨-1, s, [], []⟩
  | some (gi, g) =>
    ⟨0, { s with groups := s.groups.eraseIdx gi }, del_iface_loop 0 g.slaves, []⟩

/-- The function `fst_rate_upgrade_on_connect`. -/
def fst_rate_upgrade_on_connect (env : Env) (s : State) (group : fst_group_info)
    (iface : String) (addr : MacAddr) : Result :=
  match find_rate_upgrade_group s.groups group.id with
  | none => ⟨0, s, [], []⟩
  | some (gi, g) =>
    if os_strcmp iface.data g.master.data ≠ 0 then ⟨0, s, [], []⟩
    else
      match find_rate_upgrade_mac g addr with
      | some _ => ⟨0, s, [], []⟩
      | none =>
        match add_rate_upgrade_mac env g addr with
        | none => ⟨-1, s, [], []⟩
        | some (p, g1) =>
          let u := update_acl_file env s.files g1
          if u.1 ≠ 0 then
            ⟨-1, { s with groups := s.groups.set gi (del_rate_upgrade_mac g1 p),
                          files := u.2.1 }, [], u.2.2⟩
          else
            let d := dup_connection_loop env g1.master addr g1.acl_fname 0 g1.slaves
            match d.2 with
            | some i =>
              ⟨-1, { s with groups := s.groups.set gi (del_rate_upgrade_mac g1 p),
                            files := u.2.1 },
                d.1 ++ dedup_connection_unwind g1.slaves g1.acl_fname i, u.2.2⟩
            | none => ⟨0, { s with groups := s.groups.set gi g1, files := u.2.1 }, d.1, u.2.2⟩

/-- The function `fst_rate_upgrade_on_disconnect`. -/
def fst_rate_upgrade_on_disconnect (env : Env) (s : State) (group : fst_group_info)
    (iface : String) (addr : MacAddr) : Result :=
  match find_rate_upgrade_group s.groups group.id with
  | none => ⟨0, s, [], []⟩
  | some (gi, g) =>
    if os_strcmp iface.data g.master.data ≠ 0 then ⟨0, s, [], []⟩
    else
      match find_rate_upgrade_mac g addr with
      | none => ⟨-1, s, [], []⟩
      | some p =>
        let g1 := del_rate_upgrade_mac g p
        let u := update_acl_file env s.files g1
        if u.1 ≠ 0 then
          ⟨-1, { s with groups := s.groups.set gi g1, files := u.2.1 }, [], u.2.2⟩
        else
          let d := dedup_connection_loop env g1.acl_fname 0 g1.slaves 0
          ⟨d.2, { s with groups := s.groups.set gi g1, files := u.2.1 }, d.1, u.2.2⟩

/-! ## Sequences of calls -/

/-- One call of an entry point with its arguments. -/
inductive Call where
  | init (h : Nat)
  | deinit
  | add_group (group : fst_group_info)
  | del_group (group : fst_group_info)
  | on_connect (group : fst_group_info) (iface : String) (addr : MacAddr)
  | on_disconnect (group : fst_group_info) (iface : String) (addr : MacAddr)
deriving DecidableEq, Repr

/-- Perform one call in state `s` with the collaborators behaving as `env`. -/
def step (env : Env) (s : State) : Call → Result
  | Call.init h => fst_rate_upgrade_init s h
  | Call.deinit => fst_rate_upgrade_deinit s
  | Call.add_group group => fst_rate_upgrade_add_group env s group
  | Call.del_group group => fst_rate_upgrade_del_group s group
  | Call.on_connect group iface addr => fst_rate_upgrade_on_connect env s group iface addr
  | Call.on_disconnect group iface addr => fst_rate_upgrade_on_disconnect env s group iface addr

/-- The state after a sequence of calls, each with its own collaborator behaviour. -/
def run (s : State) : List (Env × Call) → State
  | [] => s
  | c :: cs => run (step c.1 s c.2).st cs

/-- The states the program can be in: the state right after `fst_rate_upgrade_init`, and
every state one call later. -/
inductive Reachable : State → Prop where
  | init (h : Nat) (files : Files) : Reachable ⟨h, [], true, files⟩
  | step (env : Env) (s : State) (c : Call) : Reachable s → Reachable (step env s c).st

/-- The index of the slave a driver operation was invoked on. -/
def DriverCall.slave_index : DriverCall → Nat
  | DriverCall.add_iface _ i _ _ => i
  | DriverCall.del_iface i _ => i
  | DriverCall.dup_connection i _ _ _ _ => i
  | DriverCall.dedup_connection i _ _ => i

/-! ## Reading the ACL file back -/

/-- Group names are unique across the registry. -/
def groupnames_unique (groups : List rate_upgrade_group) : Prop :=
  (groups.map rate_upgrade_group.groupname).Nodup

/-- A MAC address appears at most once in the Entry Store of every group. -/
def macs_unique (groups : List rate_upgrade_group) : Prop :=
  ∀ g ∈ groups, g.acl_macs.Nodup

/-- A C string: no NUL character before the terminator. -/
def c_string (s : String) : Prop := ∀ c ∈ s.data, c.toNat ≠ 0

instance (s : String) : Decidable (c_string s) :=
  inferInstanceAs (Decidable (∀ c ∈ s.data, c.toNat ≠ 0))

/-- The test `find_rate_upgrade_group` makes on one group of the registry. -/
def group_matches (name : String) (g : rate_upgrade_group) : Bool :=
  decide (strncmp g.groupname.data name.data name.data.length = 0)

/-- The sixteen lowercase hexadecimal digits. -/
def hex_digits : List Char := "0123456789abcdef".data

/-- The frame of an admission call, from the registry `groups` to the registry `groups1`,
when the lookup returned `found` and the call was for the MAC `addr`: same number of
groups, and at every position the same groupname, master, slaves, slave count and ACL
filename; the Entry Store is the same at every position other than the one the lookup
returned, and at that position it is the old store, the old store with `addr` added at the
tail, or the old store with `addr` removed. -/
def admission_frame (groups groups1 : List rate_upgrade_group)
    (found : Option (Nat × rate_upgrade_group)) (addr : MacAddr) : Prop :=
  groups1.length = groups.length ∧
  ∀ i g, groups[i]? = some g →
    ∃ g1, groups1[i]? = some g1 ∧
      g1.groupname = g.groupname ∧ g1.master = g.master ∧ g1.slaves = g.slaves ∧
      g1.slave_cnt = g.slave_cnt ∧ g1.acl_fname = g.acl_fname ∧
      ((∀ g0, found ≠ some (i, g0)) → g1.acl_macs = g.acl_macs) ∧
      (g1.acl_macs = g.acl_macs ∨ g1.acl_macs = g.acl_macs ++ [addr] ∨
        g1.acl_macs = g.acl_macs.erase addr)

/-! ## Concrete scenario

Group "grp0" with master "wlan0", slaves "wlan1", "wlan2", "wlan3" and ACL file
"/tmp/acl0". -/

/-- Collaborators that never fail, configured for "grp0". -/
def env_ok : Env :=
  { master := some "wlan0", is_supplicant := false, acl_fname := some "/tmp/acl0",
    slave_ifaces := some [⟨"wlan1"⟩, ⟨"wlan2"⟩, ⟨"wlan3"⟩],
    malloc_group := true, strdup_groupname := true, malloc_mac := true,
    fopen_ok := true, fprintf_ok := fun _ => true,
    fclose_ok := true, fclose_flushed := 0,
    fst_add_iface := fun _ => 0, fst_del_iface := fun _ => 0,
    fst_dup_connection := fun _ => 0, fst_dedup_connection := fun _ => 0 }

/-- As `env_ok`, but `fst_add_iface` fails on the slave of index 1. -/
def env_add_fails : Env := { env_ok with fst_add_iface := fun i => if i = 1 then -1 else 0 }

/-- As `env_ok`, but `fst_dup_connection` fails on the slave of index 2. -/
def env_dup_fails : Env :=
  { env_ok with fst_dup_connection := fun i => if i = 2 then -1 else 0 }

/-- As `env_ok`, but `fopen` fails. -/
def env_fopen_fails : Env := { env_ok with fopen_ok := false }

/-- As `env_ok`, but every `fprintf` fails. -/
def env_fprintf_fails : Env := { env_ok with fprintf_ok := fun _ => false }

/-- The group identifier "grp0". -/
def grp0 : fst_group_info := ⟨"grp0"⟩

/-- The state right after `fst_rate_upgrade_init`, with no file. -/
def state_init : State := ⟨0, [], true, fun _ => none⟩

/-- The state after "grp0" was added to `state_init`. -/
def state_grp0 : State := (fst_rate_upgrade_add_group env_ok state_init grp0).st

/-- The address aa:bb:cc:dd:ee:ff. -/
def mac_a : MacAddr := ⟨0xaa, 0xbb, 0xcc, 0xdd, 0xee, 0xff⟩

/-- The address 02:00:00:00:00:01. -/
def mac_b : MacAddr := ⟨0x02, 0x00, 0x00, 0x00, 0x00, 0x01⟩

/-- The record of "grp0" with an empty Entry Store. -/
def group_grp0 : rate_upgrade_group :=
  { groupname := "grp0", master := "wlan0", acl_fname := some "/tmp/acl0",
    slaves := [⟨"wlan1"⟩, ⟨"wlan2"⟩, ⟨"wlan3"⟩], acl_macs := [] }

/-- As `env_ok`, but `fst_del_iface` fails on every slave. -/
def env_del_fails : Env := { env_ok with fst_del_iface := fun _ => -1 }

/-- As `env_ok`, but `fst_dedup_connection` fails on the slave of index 1. -/
def env_dedup_fails : Env :=
  { env_ok with fst_dedup_connection := fun i => if i = 1 then -1 else 0 }

/-- The state after aa:bb:cc:dd:ee:ff and 02:00:00:00:00:01 connected to "grp0". -/
def state_connected : State :=
  run state_grp0 [(env_ok, Call.on_connect grp0 "wlan0" mac_a),
    (env_ok, Call.on_connect grp0 "wlan0" mac_b)]

/-- The group identifier "grp01". -/
def grp01 : fst_group_info := ⟨"grp01"⟩

/-- The state after "grp0" and then "grp01" were added to `state_init`. -/
def state_two_groups : State :=
  run state_init [(env_ok, Call.add_group grp0), (env_ok, Call.add_group grp01)]

/-! ## Lemmas on the helpers -/

theorem strncmp_self (a : List Char) (n : Nat) : strncmp a a n = 0 := by
  induction a generalizing n with
  | nil => cases n <;> simp [strncmp]
  | cons c cs ih => cases n <;> simp [strncmp, ih]

theorem os_strcmp_self (a : List Char) : os_strcmp a a = 0 := by
  induction a with
  | nil => simp [os_strcmp]
  | cons c cs ih => simp [os_strcmp, ih]

theorem u8_sub_eq_zero (a b : u8) : ((a.val : Int) - (b.val : Int) = 0) ↔ a = b := by
  constructor
  · intro h
    apply Fin.ext
    omega
  · intro h
    subst h
    omega

theorem os_memcmp_bytes (a b : MacAddr) :
    os_memcmp a.bytes b.bytes ETH_ALEN = 0 ↔ a = b := by
  cases a with
  | mk a0 a1 a2 a3 a4 a5 =>
    cases b with
    | mk b0 b1 b2 b3 b4 b5 =>
      simp only [MacAddr.bytes, ETH_ALEN, os_memcmp, MacAddr.mk.injEq]
      by_cases h0 : a0 = b0 <;> by_cases h1 : a1 = b1 <;> by_cases h2 : a2 = b2 <;>
      by_cases h3 : a3 = b3 <;> by_cases h4 : a4 = b4 <;> by_cases h5 : a5 = b5 <;>
      simp [h0, h1, h2, h3, h4, h5, u8_sub_eq_zero]

theorem dl_list_find_eq_none {α : Type} (p : α → Bool) (l : List α) :
    dl_list_find p l = none ↔ ∀ a ∈ l, p a = false := by
  induction l with
  | nil => simp [dl_list_find]
  | cons a as ih =>
    by_cases h : p a = true
    · simp [dl_list_find, h]
    · simp [dl_list_find, h, ih]

theorem dl_list_find_some {α : Type} (p : α → Bool) (l : List α) (i : Nat) (a : α)
    (h : dl_list_find p l = some (i, a)) :
    l[i]? = some a ∧ p a = true ∧ ∀ j, j < i → ∀ b, l[j]? = some b → p b = false := by
  induction l generalizing i with
  | nil => simp [dl_list_find] at h
  | cons x xs ih =>
    by_cases hx : p x = true
    · simp [dl_list_find, hx] at h
      obtain ⟨h1, h2⟩ := h
      subst h1; subst h2
      simp [hx]
    · simp only [dl_list_find, hx, Bool.false_eq_true, if_false, Option.map_eq_some'] at h
      obtain ⟨⟨i', a'⟩, h1, h2⟩ := h
      simp only [Prod.mk.injEq] at h2
      obtain ⟨h2, h3⟩ := h2
      subst h2; subst h3
      obtain ⟨k1, k2, k3⟩ := ih i' h1
      refine ⟨by simpa using k1, k2, ?_⟩
      intro j hj b hb
      cases j with
      | zero =>
        simp at hb
        subst hb
        simpa using hx
      | succ j =>
        simp at hb
        exact k3 j (by omega) b hb

theorem find_rate_upgrade_mac_eq_none (g : rate_upgrade_group) (addr : MacAddr) :
    find_rate_upgrade_mac g addr = none ↔ addr ∉ g.acl_macs := by
  unfold find_rate_upgrade_mac
  rw [Option.map_eq_none', dl_list_find_eq_none]
  simp only [decide_eq_false_iff_not, os_memcmp_bytes]
  constructor
  · intro h hm
    exact h addr hm rfl
  · intro h a ha hEq
    subst hEq
    exact h ha

theorem eraseIdx_append_last {α : Type} (l : List α) (a : α) :
    (l ++ [a]).eraseIdx l.length = l := by
  induction l with
  | nil => simp
  | cons x xs ih => simp [List.eraseIdx, ih]

theorem set_self_of_getElem {α : Type} (l : List α) (i : Nat) (a : α) (h : l[i]? = some a) :
    l.set i a = l := by
  induction l generalizing i with
  | nil => simp
  | cons x xs ih =>
    cases i with
    | zero => simp at h; simp [h]
    | succ i => simp at h; simp [ih i h]

theorem add_iface_loop_fail (env : Env) (master : String) (acl : Option String)
    (l : List fst_iface_info) (i k : Nat) (hk : k < l.length)
    (hok : ∀ j, j < k → env.fst_add_iface (i + j) = 0)
    (hfail : env.fst_add_iface (i + k) ≠ 0) :
    add_iface_loop env master acl i l =
      ((List.range (k + 1)).map
          (fun j => DriverCall.add_iface master (i + j) (l.getD j default) acl),
        some (i + k)) := by
  induction l generalizing i k with
  | nil => simp at hk
  | cons x xs ih =>
    cases k with
    | zero =>
      have h0 : env.fst_add_iface i ≠ 0 := by simpa using hfail
      simp [add_iface_loop, h0, List.range_succ]
    | succ k =>
      have h0 : env.fst_add_iface i = 0 := by simpa using hok 0 (by omega)
      have hk' : k < xs.length := by simpa using hk
      have hok' : ∀ j, j < k → env.fst_add_iface (i + 1 + j) = 0 := by
        intro j hj
        have := hok (j + 1) (by omega)
        rwa [show i + (j + 1) = i + 1 + j by omega] at this
      have hfail' : env.fst_add_iface (i + 1 + k) ≠ 0 := by
        rwa [show i + (k + 1) = i + 1 + k by omega] at hfail
      have := ih (i + 1) k hk' hok' hfail'
      simp only [add_iface_loop, h0, ne_eq, not_true_eq_false, if_false, this]
      rw [List.range_succ_eq_map (k + 1)]
      simp [List.map_map, Function.comp_def, Nat.add_assoc, Nat.add_comm 1]

theorem add_iface_loop_ok (env : Env) (master : String) (acl : Option String)
    (l : List fst_iface_info) (i : Nat)
    (hok : ∀ j, j < l.length → env.fst_add_iface (i + j) = 0) :
    add_iface_loop env master acl i l =
      ((List.range l.length).map
          (fun j => DriverCall.add_iface master (i + j) (l.getD j default) acl),
        none) := by
  induction l generalizing i with
  | nil => simp [add_iface_loop]
  | cons x xs ih =>
    have h0 : env.fst_add_iface i = 0 := by simpa using hok 0 (by simp)
    have hok' : ∀ j, j < xs.length → env.fst_add_iface (i + 1 + j) = 0 := by
      intro j hj
      have := hok (j + 1) (by simpa using hj)
      rwa [show i + (j + 1) = i + 1 + j by omega] at this
    simp only [add_iface_loop, h0, ne_eq, not_true_eq_false, if_false, ih (i + 1) hok']
    rw [List.length_cons, List.range_succ_eq_map xs.length]
    simp [List.map_map, Function.comp_def, Nat.add_assoc, Nat.add_comm 1]

theorem del_iface_unwind_eq (ifaces : List fst_iface_info) (k : Nat) :
    del_iface_unwind ifaces k =
      (List.range k).reverse.map (fun j => DriverCall.del_iface j (ifaces.getD j default)) := by
  induction k with
  | zero => simp [del_iface_unwind]
  | succ k ih => simp [del_iface_unwind, ih, List.range_succ]

/-! ## Add group: rollback (C1) -/

theorem dup_connection_loop_fail (env : Env) (master : String) (addr : MacAddr)
    (acl : Option String) (l : List fst_iface_info) (i k : Nat) (hk : k < l.length)
    (hok : ∀ j, j < k → env.fst_dup_connection (i + j) = 0)
    (hfail : env.fst_dup_connection (i + k) ≠ 0) :
    dup_connection_loop env master addr acl i l =
      ((List.range (k + 1)).map
          (fun j => DriverCall.dup_connection (i + j) (l.getD j default) master addr acl),
        some (i + k)) := by
  induction l generalizing i k with
  | nil => simp at hk
  | cons x xs ih =>
    cases k with
    | zero =>
      have h0 : env.fst_dup_connection i ≠ 0 := by simpa using hfail
      simp [dup_connection_loop, h0, List.range_succ]
    | succ k =>
      have h0 : env.fst_dup_connection i = 0 := by simpa using hok 0 (by omega)
      have hk' : k < xs.length := by simpa using hk
      have hok' : ∀ j, j < k → env.fst_dup_connection (i + 1 + j) = 0 := by
        intro j hj
        have := hok (j + 1) (by omega)
        rwa [show i + (j + 1) = i + 1 + j by omega] at this
      have hfail' : env.fst_dup_connection (i + 1 + k) ≠ 0 := by
        rwa [show i + (k + 1) = i + 1 + k by omega] at hfail
      have := ih (i + 1) k hk' hok' hfail'
      simp only [dup_connection_loop, h0, ne_eq, not_true_eq_false, if_false, this]
      rw [List.range_succ_eq_map (k + 1)]
      simp [List.map_map, Function.comp_def, Nat.add_assoc, Nat.add_comm 1]

theorem dedup_connection_unwind_eq (slaves : List fst_iface_info) (acl : Option String)
    (k : Nat) :
    dedup_connection_unwind slaves acl k =
      (List.range k).reverse.map
        (fun j => DriverCall.dedup_connection j (slaves.getD j default) acl) := by
  induction k with
  | zero => simp [dedup_connection_unwind]
  | succ k ih => simp [dedup_connection_unwind, ih, List.range_succ]

/-- C1 (all-or-nothing add): when the lookup finds no group, a master is configured, the
allocations succeed, `N ≥ 1` slaves are resolved, the ACL persist succeeds, and
`fst_add_iface` succeeds on slaves `0..k-2` and fails on the `k`-th slave (`1 ≤ k ≤ N`),
then `fst_rate_upgrade_add_group` returns `-1`, the driver operations invoked are
`fst_add_iface` on slaves `0..k-1` in order followed by `fst_del_iface` on slaves
`k-2, ..., 0` in that order, every operation is on a slave of index below `k`, and the
registry is the one before the call. -/
theorem add_group_all_or_nothing (env : Env) (s : State) (group : fst_group_info)
    (master : String) (ifaces : List fst_iface_info) (k : Nat)
    (hfind : find_rate_upgrade_group s.groups group.id = none)
    (hmaster : env.master = some master)
    (hmalloc : env.malloc_group = true) (hstrdup : env.strdup_groupname = true)
    (hslaves : env.slave_ifaces = some ifaces)
    (hk1 : 1 ≤ k) (hkN : k ≤ ifaces.length)
    (hpersist : (update_acl_file env s.files
        { groupname := group.id, master := master,
          acl_fname := if env.is_supplicant then none else env.acl_fname,
          slaves := ifaces, acl_macs := [] }).1 = 0)
    (hok : ∀ j, j < k - 1 → env.fst_add_iface j = 0)
    (hfail : env.fst_add_iface (k - 1) ≠ 0) :
    (fst_rate_upgrade_add_group env s group).ret = -1 ∧
    (fst_rate_upgrade_add_group env s group).calls =
      (List.range k).map (fun j => DriverCall.add_iface master j (ifaces.getD j default)
        (if env.is_supplicant then none else env.acl_fname)) ++
      (List.range (k - 1)).reverse.map
        (fun j => DriverCall.del_iface j (ifaces.getD j default)) ∧
    (∀ c ∈ (fst_rate_upgrade_add_group env s group).calls, c.slave_index < k) ∧
    (fst_rate_upgrade_add_group env s group).st.groups = s.groups := by
  obtain ⟨k, rfl⟩ : ∃ k', k = k' + 1 := ⟨k - 1, by omega⟩
  simp only [Nat.add_sub_cancel] at hok hfail
  cases ifaces with
  | nil => simp at hkN
  | cons i0 irest =>
    have hloop := add_iface_loop_fail env master
      (if env.is_supplicant then none else env.acl_fname) (i0 :: irest) 0 k (by omega)
      (by simpa using hok) (by simpa using hfail)
    simp only [Nat.zero_add] at hloop
    have hcalls : (fst_rate_upgrade_add_group env s group).calls =
        (List.range (k + 1)).map (fun j => DriverCall.add_iface master j
          ((i0 :: irest).getD j default)
          (if env.is_supplicant then none else env.acl_fname)) ++
        (List.range k).reverse.map
          (fun j => DriverCall.del_iface j ((i0 :: irest).getD j default)) := by
      simp [fst_rate_upgrade_add_group, hfind, hmaster, hmalloc, hstrdup, hslaves, hpersist,
        hloop, del_iface_unwind_eq]
    refine ⟨?_, ?_, ?_, ?_⟩
    · simp [fst_rate_upgrade_add_group, hfind, hmaster, hmalloc, hstrdup, hslaves, hpersist,
        hloop]
    · simpa using hcalls
    · intro c hc
      rw [hcalls] at hc
      simp only [List.mem_append, List.mem_map, List.mem_range, List.mem_reverse] at hc
      rcases hc with ⟨j, hj, rfl⟩ | ⟨j, hj, rfl⟩
      · simpa [DriverCall.slave_index] using hj
      · simp only [DriverCall.slave_index]; omega
    · simp [fst_rate_upgrade_add_group, hfind, hmaster, hmalloc, hstrdup, hslaves, hpersist,
        hloop]

/-- Instance of C1: "grp0" with three slaves, `fst_add_iface` failing on the second. -/
theorem add_group_all_or_nothing_witness :
    (fst_rate_upgrade_add_group env_add_fails state_init grp0).ret = -1 ∧
    (fst_rate_upgrade_add_group env_add_fails state_init grp0).calls =
      [DriverCall.add_iface "wlan0" 0 ⟨"wlan1"⟩ (some "/tmp/acl0"),
       DriverCall.add_iface "wlan0" 1 ⟨"wlan2"⟩ (some "/tmp/acl0"),
       DriverCall.del_iface 0 ⟨"wlan1"⟩] ∧
    (fst_rate_upgrade_add_group env_add_fails state_init grp0).st.groups = [] := by
  have h := add_group_all_or_nothing env_add_fails state_init grp0 "wlan0"
    [⟨"wlan1"⟩, ⟨"wlan2"⟩, ⟨"wlan3"⟩] 2 (by decide) rfl rfl rfl rfl (by decide) (by decide)
    (by decide) (by decide) (by decide)
  exact ⟨h.1, h.2.1, h.2.2.2⟩

/-! ## Connect: rollback (C2) -/

theorem find_rate_upgrade_group_some (groups : List rate_upgrade_group) (name : String)
    (gi : Nat) (g : rate_upgrade_group)
    (h : find_rate_upgrade_group groups name = some (gi, g)) :
    groups[gi]? = some g ∧ strncmp g.groupname.data name.data name.data.length = 0 := by
  have := dl_list_find_some _ groups gi g h
  exact ⟨this.1, by simpa using this.2.1⟩

/-- C2 (rollback on duplicate failure): for a group found by the lookup, an event on its
master interface and a MAC that is not in its Entry Store, when the allocation and the ACL
persist succeed and `fst_dup_connection` succeeds on slaves `0..i-1` and fails on slave
`i`, then `fst_rate_upgrade_on_connect` returns `-1`, the driver operations invoked are
`fst_dup_connection` on slaves `0..i` followed by `fst_dedup_connection` on slaves
`i-1, ..., 0` in that order, every operation is on a slave of index at most `i`, and the
registry (so the group's Entry Store) is the one before the call. -/
theorem on_connect_rollback (env : Env) (s : State) (group : fst_group_info)
    (iface : String) (addr : MacAddr) (gi : Nat) (g : rate_upgrade_group) (i : Nat)
    (hfind : find_rate_upgrade_group s.groups group.id = some (gi, g))
    (hiface : iface = g.master)
    (hmac : addr ∉ g.acl_macs)
    (hmalloc : env.malloc_mac = true)
    (hpersist : (update_acl_file env s.files
        { g with acl_macs := g.acl_macs ++ [addr] }).1 = 0)
    (hi : i < g.slaves.length)
    (hok : ∀ j, j < i → env.fst_dup_connection j = 0)
    (hfail : env.fst_dup_connection i ≠ 0) :
    (fst_rate_upgrade_on_connect env s group iface addr).ret = -1 ∧
    (fst_rate_upgrade_on_connect env s group iface addr).calls =
      (List.range (i + 1)).map (fun j => DriverCall.dup_connection j (g.slaves.getD j default)
        g.master addr g.acl_fname) ++
      (List.range i).reverse.map
        (fun j => DriverCall.dedup_connection j (g.slaves.getD j default) g.acl_fname) ∧
    (∀ c ∈ (fst_rate_upgrade_on_connect env s group iface addr).calls, c.slave_index ≤ i) ∧
    (fst_rate_upgrade_on_connect env s group iface addr).st.groups = s.groups := by
  subst hiface
  have hnone := (find_rate_upgrade_mac_eq_none g addr).2 hmac
  have hget := (find_rate_upgrade_group_some s.groups group.id gi g hfind).1
  have hloop := dup_connection_loop_fail env g.master addr g.acl_fname g.slaves 0 i hi
    (by simpa using hok) (by simpa using hfail)
  simp only [Nat.zero_add] at hloop
  have hcalls : (fst_rate_upgrade_on_connect env s group g.master addr).calls =
      (List.range (i + 1)).map (fun j => DriverCall.dup_connection j (g.slaves.getD j default)
        g.master addr g.acl_fname) ++
      (List.range i).reverse.map
        (fun j => DriverCall.dedup_connection j (g.slaves.getD j default) g.acl_fname) := by
    simp [fst_rate_upgrade_on_connect, hfind, os_strcmp_self, hnone, add_rate_upgrade_mac,
      hmalloc, hpersist, hloop, dedup_connection_unwind_eq]
  refine ⟨?_, hcalls, ?_, ?_⟩
  · simp [fst_rate_upgrade_on_connect, hfind, os_strcmp_self, hnone, add_rate_upgrade_mac,
      hmalloc, hpersist, hloop]
  · intro c hc
    rw [hcalls] at hc
    simp only [List.mem_append, List.mem_map, List.mem_range, List.mem_reverse] at hc
    rcases hc with ⟨j, hj, rfl⟩ | ⟨j, hj, rfl⟩
    · simp only [DriverCall.slave_index]; omega
    · simp only [DriverCall.slave_index]; omega
  · simp [fst_rate_upgrade_on_connect, hfind, os_strcmp_self, hnone, add_rate_upgrade_mac,
      hmalloc, hpersist, hloop, del_rate_upgrade_mac, eraseIdx_append_last,
      set_self_of_getElem s.groups gi g hget]

/-- Instance of C2: three slaves, `fst_dup_connection` failing on the third. -/
theorem on_connect_rollback_witness :
    (fst_rate_upgrade_on_connect env_dup_fails state_grp0 grp0 "wlan0" mac_a).ret = -1 ∧
    (fst_rate_upgrade_on_connect env_dup_fails state_grp0 grp0 "wlan0" mac_a).calls =
      [DriverCall.dup_connection 0 ⟨"wlan1"⟩ "wlan0" mac_a (some "/tmp/acl0"),
       DriverCall.dup_connection 1 ⟨"wlan2"⟩ "wlan0" mac_a (some "/tmp/acl0"),
       DriverCall.dup_connection 2 ⟨"wlan3"⟩ "wlan0" mac_a (some "/tmp/acl0"),
       DriverCall.dedup_connection 1 ⟨"wlan2"⟩ (some "/tmp/acl0"),
       DriverCall.dedup_connection 0 ⟨"wlan1"⟩ (some "/tmp/acl0")] ∧
    (fst_rate_upgrade_on_connect env_dup_fails state_grp0 grp0 "wlan0" mac_a).st.groups =
      [group_grp0] := by
  have h := on_connect_rollback env_dup_fails state_grp0 grp0 "wlan0" mac_a 0 group_grp0 2
    (by decide) rfl (by decide) rfl (by decide) (by decide) (by decide) (by decide)
  exact ⟨h.1, h.2.1, h.2.2.2⟩

/-! ## ACL file fidelity (C3) -/

theorem write_acl_lines_ok (env : Env) (fname : String) (i : Nat) (macs : List MacAddr)
    (h : (write_acl_lines env fname i macs).1 = true) :
    (write_acl_lines env fname i macs).2.1 = acl_content macs := by
  induction macs generalizing i with
  | nil => simp [write_acl_lines, acl_content]
  | cons p rest ih =>
    by_cases hp : env.fprintf_ok i = true
    · simp only [write_acl_lines, hp, if_true] at h ⊢
      simp [acl_content, ih (i + 1) h]
    · simp [write_acl_lines, hp] at h

theorem update_acl_file_empty (env : Env) (files : Files) (g : rate_upgrade_group)
    (fname : String) (hacl : g.acl_fname = some fname) (hmacs : g.acl_macs = [])
    (h : (update_acl_file env files g).1 = 0) :
    (update_acl_file env files g).2.1 fname = some [] := by
  by_cases hopen : env.fopen_ok = true
  · simp [update_acl_file, hacl, hopen, hmacs, write_acl_lines, Files.write]
  · simp [update_acl_file, hacl, hopen] at h

theorem getElem_set_self_of_getElem {α : Type} (l : List α) (i : Nat) (a b : α)
    (h : l[i]? = some a) : (l.set i b)[i]? = some b := by
  have hi : i < l.length := by
    rcases Nat.lt_or_ge i l.length with h' | h'
    · exact h'
    · rw [List.getElem?_eq_none h'] at h; cases h
  simp [List.getElem?_set, hi]

/-! ## The ACL file after a failed add (C4) -/

/-- Counterexample to C4 as stated: no file exists, "grp0" is configured with the ACL file
"/tmp/acl0", and `fst_add_iface` fails on the second slave.  The call returns `-1`, and
the file, absent before, now exists (empty). -/
theorem add_group_failure_file_counterexample :
    (fst_rate_upgrade_add_group env_add_fails state_init grp0).ret = -1 ∧
    state_init.files "/tmp/acl0" = none ∧
    (fst_rate_upgrade_add_group env_add_fails state_init grp0).st.files "/tmp/acl0" =
      some [] := by
  decide

/-- C4 as amended: when `fst_rate_upgrade_add_group` returns `-1` without having invoked
a driver operation (allocation failure, slave resolution error, zero slaves, persist
failure), every file is as before the call; when it returns `-1` after a failed
`fst_add_iface`, the ACL file of the group, if one is configured, exists and is empty
(created or truncated by the persist step) and every other file is as before. -/
theorem add_group_failure_file (env : Env) (s : State) (group : fst_group_info)
    (hret : (fst_rate_upgrade_add_group env s group).ret = -1) :
    ((fst_rate_upgrade_add_group env s group).calls = [] →
      (fst_rate_upgrade_add_group env s group).st.files = s.files) ∧
    ((fst_rate_upgrade_add_group env s group).calls ≠ [] →
      ∀ f, (fst_rate_upgrade_add_group env s group).st.files f =
        if (if env.is_supplicant then none else env.acl_fname) = some f then some []
        else s.files f) := by
  unfold fst_rate_upgrade_add_group at hret ⊢
  cases hfind : find_rate_upgrade_group s.groups group.id with
  | some r => simp [hfind] at hret
  | none =>
    cases hmaster : env.master with
    | none => simp [hfind, hmaster] at hret
    | some master =>
      by_cases hmalloc : env.malloc_group = true
      · by_cases hstrdup : env.strdup_groupname = true
        · cases hslaves : env.slave_ifaces with
          | none => simp [hmalloc, hstrdup]
          | some ifaces =>
            cases ifaces with
            | nil => simp [hmalloc, hstrdup]
            | cons i0 irest =>
              simp only [hfind, hmaster, hmalloc, hstrdup, hslaves] at hret ⊢
              cases hacl : (if env.is_supplicant then none else env.acl_fname) with
              | none =>
                simp only [update_acl_file, hacl] at hret ⊢
                simp only [ne_eq, not_true_eq_false, if_false] at hret ⊢
                cases hloop : (add_iface_loop env master none 0 (i0 :: irest)).2 with
                | some i => simp
                | none => simp [hloop] at hret
              | some fname =>
                by_cases hopen : env.fopen_ok = true
                · simp only [update_acl_file, hacl, hopen, write_acl_lines, if_true, ne_eq,
                    not_true_eq_false, if_false] at hret ⊢
                  cases hloop : (add_iface_loop env master (some fname) 0 (i0 :: irest)).2 with
                  | some i =>
                    have hne : (add_iface_loop env master (some fname) 0 (i0 :: irest)).1 ≠ [] := by
                      by_cases h0 : env.fst_add_iface 0 = 0 <;> simp [add_iface_loop, h0]
                    simp only [Bool.not_true, Bool.false_eq_true, if_false, List.append_eq_nil,
                      hne, false_and, false_implies, true_and, Option.some.injEq]
                    intro _ f
                    by_cases hf : fname = f
                    · subst hf; simp [Files.write]
                    · have hf' : ¬ f = fname := fun e => hf e.symm
                      simp [Files.write, hf, hf']
                  | none => simp [hloop] at hret
                · simp [update_acl_file, hacl, hopen]
        · simp [hmalloc, hstrdup]
      · simp [hmalloc]

/-- Instance of C4 as amended: the failed add of the counterexample leaves "/tmp/acl0"
empty and the file "/tmp/other" as it was. -/
theorem add_group_failure_file_witness :
    (fst_rate_upgrade_add_group env_add_fails state_init grp0).st.files "/tmp/acl0" = some [] ∧
    (fst_rate_upgrade_add_group env_add_fails state_init grp0).st.files "/tmp/other" =
      state_init.files "/tmp/other" ∧
    (fst_rate_upgrade_add_group env_fopen_fails state_init grp0).st.files =
      state_init.files :=
  ⟨(add_group_failure_file env_add_fails state_init grp0 (by decide)).2 (by decide)
      "/tmp/acl0",
    (add_group_failure_file env_add_fails state_init grp0 (by decide)).2 (by decide)
      "/tmp/other",
    (add_group_failure_file env_fopen_fails state_init grp0 (by decide)).1 (by decide)⟩

/-! ## Invariants of the registry (C5, C6) -/

theorem deinit_groups_eq_nil (l : List rate_upgrade_group) : deinit_groups l = [] := by
  induction l with
  | nil => rfl
  | cons g rest ih => simpa [deinit_groups] using ih

theorem find_rate_upgrade_group_none_ne (groups : List rate_upgrade_group) (name : String)
    (h : find_rate_upgrade_group groups name = none) :
    ∀ g ∈ groups, g.groupname ≠ name := by
  intro g hg hEq
  have hall := (dl_list_find_eq_none _ groups).1 h g hg
  rw [hEq] at hall
  simp [strncmp_self] at hall

theorem map_groupname_set (l : List rate_upgrade_group) (gi : Nat)
    (g g1 : rate_upgrade_group) (hget : l[gi]? = some g) (hname : g1.groupname = g.groupname) :
    (l.set gi g1).map rate_upgrade_group.groupname = l.map rate_upgrade_group.groupname := by
  induction l generalizing gi with
  | nil => simp
  | cons x xs ih =>
    cases gi with
    | zero =>
      simp at hget
      subst hget
      simp [hname]
    | succ gi =>
      simp at hget
      simp [ih gi hget]

theorem macs_unique_set (l : List rate_upgrade_group) (gi : Nat) (g1 : rate_upgrade_group)
    (hl : macs_unique l) (h1 : g1.acl_macs.Nodup) : macs_unique (l.set gi g1) := by
  intro g hg
  rcases List.mem_or_eq_of_mem_set hg with h | h
  · exact hl g h
  · rw [h]; exact h1

/-- What an admission call can do to the registry: nothing, or replace the Entry Store of
the group the lookup returned, keeping the store free of repetitions. -/
theorem on_connect_groups (env : Env) (s : State) (group : fst_group_info) (iface : String)
    (addr : MacAddr) :
    (fst_rate_upgrade_on_connect env s group iface addr).st.groups = s.groups ∨
    ∃ gi g macs, s.groups[gi]? = some g ∧ (g.acl_macs.Nodup → macs.Nodup) ∧
      (fst_rate_upgrade_on_connect env s group iface addr).st.groups =
        s.groups.set gi { g with acl_macs := macs } := by
  unfold fst_rate_upgrade_on_connect
  cases hfind : find_rate_upgrade_group s.groups group.id with
  | none => simp
  | some r =>
    obtain ⟨gi, g⟩ := r
    have hget := (find_rate_upgrade_group_some s.groups group.id gi g hfind).1
    by_cases hif : os_strcmp iface.data g.master.data = 0
    · cases hmac : find_rate_upgrade_mac g addr with
      | some p => simp [hif, hmac]
      | none =>
        have hnot := (find_rate_upgrade_mac_eq_none g addr).1 hmac
        by_cases hm : env.malloc_mac = true
        · right
          by_cases hp : (update_acl_file env s.files
              { g with acl_macs := g.acl_macs ++ [addr] }).1 = 0
          · cases hd : (dup_connection_loop env g.master addr g.acl_fname 0 g.slaves).2 with
            | some i =>
              refine ⟨gi, g, g.acl_macs, hget, id, ?_⟩
              simp [hif, hmac, add_rate_upgrade_mac, hm, hp, hd, del_rate_upgrade_mac,
                eraseIdx_append_last]
            | none =>
              refine ⟨gi, g, g.acl_macs ++ [addr], hget, ?_, ?_⟩
              · intro hnd
                exact List.Nodup.append hnd (List.nodup_singleton addr) (by simpa using hnot)
              · simp [hif, hmac, add_rate_upgrade_mac, hm, hp, hd]
          · refine ⟨gi, g, g.acl_macs, hget, id, ?_⟩
            simp [hif, hmac, add_rate_upgrade_mac, hm, hp, del_rate_upgrade_mac,
              eraseIdx_append_last]
        · simp [hif, hmac, add_rate_upgrade_mac, hm]
    · simp [hif]

theorem on_disconnect_groups (env : Env) (s : State) (group : fst_group_info)
    (iface : String) (addr : MacAddr) :
    (fst_rate_upgrade_on_disconnect env s group iface addr).st.groups = s.groups ∨
    ∃ gi g macs, s.groups[gi]? = some g ∧ (g.acl_macs.Nodup → macs.Nodup) ∧
      (fst_rate_upgrade_on_disconnect env s group iface addr).st.groups =
        s.groups.set gi { g with acl_macs := macs } := by
  unfold fst_rate_upgrade_on_disconnect
  cases hfind : find_rate_upgrade_group s.groups group.id with
  | none => simp
  | some r =>
    obtain ⟨gi, g⟩ := r
    have hget := (find_rate_upgrade_group_some s.groups group.id gi g hfind).1
    by_cases hif : os_strcmp iface.data g.master.data = 0
    · cases hmac : find_rate_upgrade_mac g addr with
      | none => simp [hif, hmac]
      | some p =>
        right
        refine ⟨gi, g, g.acl_macs.eraseIdx p, hget,
          fun hnd => List.Nodup.sublist (List.eraseIdx_sublist _ _) hnd, ?_⟩
        simp only [hif, hmac, ne_eq, not_true_eq_false, if_false]
        split <;> rfl
    · simp [hif]

/-- What `fst_rate_upgrade_add_group` can do to the registry: nothing, or append one group
with the name looked up and an empty Entry Store, the lookup having found no group. -/
theorem add_group_groups (env : Env) (s : State) (group : fst_group_info) :
    (fst_rate_upgrade_add_group env s group).st.groups = s.groups ∨
    ∃ g, find_rate_upgrade_group s.groups group.id = none ∧ g.groupname = group.id ∧
      g.acl_macs = [] ∧ (fst_rate_upgrade_add_group env s group).st.groups = s.groups ++ [g] := by
  unfold fst_rate_upgrade_add_group
  cases hfind : find_rate_upgrade_group s.groups group.id with
  | some r => simp
  | none =>
    cases hmaster : env.master with
    | none => simp
    | some master =>
      by_cases hmalloc : env.malloc_group = true
      · by_cases hstrdup : env.strdup_groupname = true
        · cases hslaves : env.slave_ifaces with
          | none => simp [hmalloc, hstrdup]
          | some ifaces =>
            cases ifaces with
            | nil => simp [hmalloc, hstrdup]
            | cons i0 irest =>
              simp only [hmalloc, hstrdup, Bool.not_true, Bool.false_eq_true, if_false]
              generalize (if env.is_supplicant = true then none else env.acl_fname) = acl
              repeat' split
              all_goals first
                | exact Or.inl rfl
                | exact Or.inr ⟨_, trivial, rfl, rfl, rfl⟩
        · simp [hmalloc, hstrdup]
      · simp [hmalloc]

theorem del_group_groups (s : State) (group : fst_group_info) :
    ∃ gi, (fst_rate_upgrade_del_group s group).st.groups = s.groups.eraseIdx gi := by
  unfold fst_rate_upgrade_del_group
  cases hfind : find_rate_upgrade_group s.groups group.id with
  | none => exact ⟨s.groups.length, by simp [List.eraseIdx_of_length_le]⟩
  | some r => exact ⟨r.1, rfl⟩

theorem step_preserves_groupnames_unique (env : Env) (s : State) (c : Call)
    (h : groupnames_unique s.groups) : groupnames_unique (step env s c).st.groups := by
  cases c with
  | init hh => simp [step, fst_rate_upgrade_init, groupnames_unique]
  | deinit =>
    by_cases hi : s.initialized = true
    · simp [step, fst_rate_upgrade_deinit, hi, deinit_groups_eq_nil, groupnames_unique]
    · simpa [step, fst_rate_upgrade_deinit, hi] using h
  | add_group group =>
    rcases add_group_groups env s group with h1 | ⟨g, hfind, hname, _, h1⟩
    · simpa [step, h1] using h
    · have hne := find_rate_upgrade_group_none_ne s.groups group.id hfind
      simp only [step, h1, groupnames_unique, List.map_append, List.map_cons, List.map_nil]
      refine List.Nodup.append h (List.nodup_singleton _) ?_
      rw [List.disjoint_singleton]
      simp only [List.mem_map, not_exists, not_and]
      intro x hx hEq
      exact hne x hx (hEq.trans hname)
  | del_group group =>
    obtain ⟨gi, h1⟩ := del_group_groups s group
    simp only [step, h1, groupnames_unique]
    exact List.Nodup.sublist (List.Sublist.map _ (List.eraseIdx_sublist _ _)) h
  | on_connect group iface addr =>
    rcases on_connect_groups env s group iface addr with h1 | ⟨gi, g, macs, hget, _, h1⟩
    · simpa [step, h1] using h
    · simp only [step, h1, groupnames_unique]
      rw [map_groupname_set s.groups gi g { g with acl_macs := macs } hget rfl]
      exact h
  | on_disconnect group iface addr =>
    rcases on_disconnect_groups env s group iface addr with h1 | ⟨gi, g, macs, hget, _, h1⟩
    · simpa [step, h1] using h
    · simp only [step, h1, groupnames_unique]
      rw [map_groupname_set s.groups gi g { g with acl_macs := macs } hget rfl]
      exact h

theorem step_preserves_macs_unique (env : Env) (s : State) (c : Call)
    (h : macs_unique s.groups) : macs_unique (step env s c).st.groups := by
  cases c with
  | init hh => simp [step, fst_rate_upgrade_init, macs_unique]
  | deinit =>
    by_cases hi : s.initialized = true
    · simp [step, fst_rate_upgrade_deinit, hi, deinit_groups_eq_nil, macs_unique]
    · simpa [step, fst_rate_upgrade_deinit, hi] using h
  | add_group group =>
    rcases add_group_groups env s group with h1 | ⟨g, _, _, hmacs, h1⟩
    · simpa [step, h1] using h
    · simp only [step, h1]
      intro x hx
      rcases List.mem_append.1 hx with hx | hx
      · exact h x hx
      · simp only [List.mem_singleton] at hx
        rw [hx, hmacs]
        exact List.nodup_nil
  | del_group group =>
    obtain ⟨gi, h1⟩ := del_group_groups s group
    simp only [step, h1]
    intro x hx
    exact h x ((List.eraseIdx_sublist _ _).subset hx)
  | on_connect group iface addr =>
    rcases on_connect_groups env s group iface addr with h1 | ⟨gi, g, macs, hget, hnd, h1⟩
    · simpa [step, h1] using h
    · simp only [step, h1]
      exact macs_unique_set _ _ _ h (hnd (h g (List.getElem?_mem hget)))
  | on_disconnect group iface addr =>
    rcases on_disconnect_groups env s group iface addr with h1 | ⟨gi, g, macs, hget, hnd, h1⟩
    · simpa [step, h1] using h
    · simp only [step, h1]
      exact macs_unique_set _ _ _ h (hnd (h g (List.getElem?_mem hget)))

theorem reachable_run (s : State) (cs : List (Env × Call)) (h : Reachable s) :
    Reachable (run s cs) := by
  induction cs generalizing s with
  | nil => exact h
  | cons c cs ih => exact ih _ (Reachable.step c.1 s c.2 h)

/-- C5 (group-name uniqueness): in every state reachable from `fst_rate_upgrade_init` by
calls of `add_group`, `del_group`, `on_connect`, `on_disconnect`, `deinit` (and `init`),
whatever the collaborators answer, no two groups of the registry have the same
`groupname`. -/
theorem groupnames_unique_invariant (s : State) (h : Reachable s) :
    groupnames_unique s.groups := by
  induction h with
  | init hh files => simp [groupnames_unique]
  | step env s c _ ih => exact step_preserves_groupnames_unique env s c ih

/-- Instance of C5: the registry after adding "grp0" and then "grp01". -/
theorem groupnames_unique_invariant_witness :
    groupnames_unique
      (run state_init [(env_ok, Call.add_group grp0), (env_ok, Call.add_group ⟨"grp01"⟩)]).groups ∧
    (run state_init [(env_ok, Call.add_group grp0),
      (env_ok, Call.add_group ⟨"grp01"⟩)]).groups.map rate_upgrade_group.groupname =
      ["grp0", "grp01"] :=
  ⟨groupnames_unique_invariant _ (reachable_run state_init _ (Reachable.init 0 _)), by decide⟩

/-- C6 (MAC uniqueness): in every state reachable from `fst_rate_upgrade_init` by calls of
the entry points, including calls that fail and roll back, each MAC address occurs at most
once in the `acl_macs` list of every group. -/
theorem macs_unique_invariant (s : State) (h : Reachable s) : macs_unique s.groups := by
  induction h with
  | init hh files => simp [macs_unique]
  | step env s c _ ih => exact step_preserves_macs_unique env s c ih

/-- Instance of C6: the Entry Store after two peers connect, a third connection is rolled
back, and the first peer connects again. -/
theorem macs_unique_invariant_witness :
    macs_unique
      (run state_grp0 [(env_ok, Call.on_connect grp0 "wlan0" mac_a),
        (env_ok, Call.on_connect grp0 "wlan0" mac_b),
        (env_dup_fails, Call.on_connect grp0 "wlan0" ⟨2, 0, 0, 0, 0, 2⟩),
        (env_ok, Call.on_connect grp0 "wlan0" mac_a)]).groups ∧
    (run state_grp0 [(env_ok, Call.on_connect grp0 "wlan0" mac_a),
        (env_ok, Call.on_connect grp0 "wlan0" mac_b),
        (env_dup_fails, Call.on_connect grp0 "wlan0" ⟨2, 0, 0, 0, 0, 2⟩),
        (env_ok, Call.on_connect grp0 "wlan0" mac_a)]).groups.map
      rate_upgrade_group.acl_macs = [[mac_a, mac_b]] :=
  ⟨macs_unique_invariant _
      (reachable_run state_grp0 _
        (Reachable.step env_ok state_init (Call.add_group grp0) (Reachable.init 0 _))),
    by decide⟩

/-! ## No-op paths (C7, C8) -/

/-- C7 (duplicate add is a no-op): when a group with the given name is registered,
`fst_rate_upgrade_add_group` returns `0`, invokes no driver operation, attempts no file
operation, and leaves the whole state (registry, every group, every file) as it was. -/
theorem add_group_duplicate_noop (env : Env) (s : State) (group : fst_group_info)
    (h : ∃ g ∈ s.groups, g.groupname = group.id) :
    (fst_rate_upgrade_add_group env s group).ret = 0 ∧
    (fst_rate_upgrade_add_group env s group).calls = [] ∧
    (fst_rate_upgrade_add_group env s group).fileops = [] ∧
    (fst_rate_upgrade_add_group env s group).st = s := by
  obtain ⟨g, hg, hname⟩ := h
  cases hfind : find_rate_upgrade_group s.groups group.id with
  | none => exact absurd hname (find_rate_upgrade_group_none_ne s.groups group.id hfind g hg)
  | some r => simp [fst_rate_upgrade_add_group, hfind]

/-- Instance of C7: adding "grp0" a second time while every collaborator would fail. -/
theorem add_group_duplicate_noop_witness :
    (fst_rate_upgrade_add_group env_add_fails state_grp0 grp0).ret = 0 ∧
    (fst_rate_upgrade_add_group env_add_fails state_grp0 grp0).calls = [] ∧
    (fst_rate_upgrade_add_group env_add_fails state_grp0 grp0).fileops = [] ∧
    (fst_rate_upgrade_add_group env_add_fails state_grp0 grp0).st = state_grp0 :=
  add_group_duplicate_noop env_add_fails state_grp0 grp0 ⟨group_grp0, by decide, rfl⟩

theorem dl_list_find_set {α : Type} (p : α → Bool) (l : List α) (i : Nat) (a b : α)
    (h : dl_list_find p l = some (i, a)) (hb : p b = true) :
    dl_list_find p (l.set i b) = some (i, b) := by
  induction l generalizing i with
  | nil => simp [dl_list_find] at h
  | cons x xs ih =>
    by_cases hx : p x = true
    · simp [dl_list_find, hx] at h
      obtain ⟨h1, _⟩ := h
      subst h1
      simp [dl_list_find, hb]
    · simp only [dl_list_find, hx, Bool.false_eq_true, if_false, Option.map_eq_some'] at h
      obtain ⟨⟨i1, a1⟩, h1, h2⟩ := h
      simp only [Prod.mk.injEq] at h2
      obtain ⟨h2, h3⟩ := h2
      subst h2; subst h3
      simp [dl_list_find, hx, ih i1 h1]

theorem find_rate_upgrade_group_set (groups : List rate_upgrade_group) (name : String)
    (gi : Nat) (g g1 : rate_upgrade_group)
    (h : find_rate_upgrade_group groups name = some (gi, g))
    (hname : g1.groupname = g.groupname) :
    find_rate_upgrade_group (groups.set gi g1) name = some (gi, g1) := by
  have hp := (find_rate_upgrade_group_some groups name gi g h).2
  exact dl_list_find_set _ groups gi g g1 h (by simpa [hname] using hp)

theorem find_rate_upgrade_mac_of_mem (g : rate_upgrade_group) (addr : MacAddr)
    (h : addr ∈ g.acl_macs) : ∃ p, find_rate_upgrade_mac g addr = some p := by
  cases hf : find_rate_upgrade_mac g addr with
  | none => exact absurd h ((find_rate_upgrade_mac_eq_none g addr).1 hf)
  | some p => exact ⟨p, rfl⟩

/-- C8 (idempotent connect): in every state, when `fst_rate_upgrade_on_connect` returns
`0`, the same call repeated right after it (whatever the collaborators would answer)
returns `0`, invokes no driver operation, attempts no file operation, and leaves the whole
state (registry, every Entry Store, every file) as the first call left it. -/
theorem on_connect_idempotent (env env2 : Env) (s : State) (group : fst_group_info)
    (iface : String) (addr : MacAddr)
    (hret : (fst_rate_upgrade_on_connect env s group iface addr).ret = 0) :
    (fst_rate_upgrade_on_connect env2
      (fst_rate_upgrade_on_connect env s group iface addr).st group iface addr).ret = 0 ∧
    (fst_rate_upgrade_on_connect env2
      (fst_rate_upgrade_on_connect env s group iface addr).st group iface addr).calls = [] ∧
    (fst_rate_upgrade_on_connect env2
      (fst_rate_upgrade_on_connect env s group iface addr).st group iface addr).fileops = [] ∧
    (fst_rate_upgrade_on_connect env2
      (fst_rate_upgrade_on_connect env s group iface addr).st group iface addr).st =
      (fst_rate_upgrade_on_connect env s group iface addr).st := by
  cases hfind : find_rate_upgrade_group s.groups group.id with
  | none =>
    have h1 : (fst_rate_upgrade_on_connect env s group iface addr).st = s := by
      simp [fst_rate_upgrade_on_connect, hfind]
    rw [h1]
    simp [fst_rate_upgrade_on_connect, hfind]
  | some r =>
    obtain ⟨gi, g⟩ := r
    by_cases hif : os_strcmp iface.data g.master.data = 0
    · cases hmac : find_rate_upgrade_mac g addr with
      | some p =>
        have h1 : (fst_rate_upgrade_on_connect env s group iface addr).st = s := by
          simp [fst_rate_upgrade_on_connect, hfind, hif, hmac]
        rw [h1]
        simp [fst_rate_upgrade_on_connect, hfind, hif, hmac]
      | none =>
        by_cases hm : env.malloc_mac = true
        · by_cases hp : (update_acl_file env s.files
              { g with acl_macs := g.acl_macs ++ [addr] }).1 = 0
          · cases hd : (dup_connection_loop env g.master addr g.acl_fname 0 g.slaves).2 with
            | some i =>
              simp [fst_rate_upgrade_on_connect, hfind, hif, hmac, add_rate_upgrade_mac, hm,
                hp, hd] at hret
            | none =>
              have h1 : (fst_rate_upgrade_on_connect env s group iface addr).st =
                  { s with
                    groups := s.groups.set gi { g with acl_macs := g.acl_macs ++ [addr] },
                    files := (update_acl_file env s.files
                      { g with acl_macs := g.acl_macs ++ [addr] }).2.1 } := by
                simp [fst_rate_upgrade_on_connect, hfind, hif, hmac, add_rate_upgrade_mac, hm,
                  hp, hd]
              have hfind2 := find_rate_upgrade_group_set s.groups group.id gi g
                { g with acl_macs := g.acl_macs ++ [addr] } hfind rfl
              obtain ⟨p, hmac2⟩ := find_rate_upgrade_mac_of_mem
                { g with acl_macs := g.acl_macs ++ [addr] } addr (by simp)
              rw [h1]
              simp [fst_rate_upgrade_on_connect, hfind2, hif, hmac2]
          · simp [fst_rate_upgrade_on_connect, hfind, hif, hmac, add_rate_upgrade_mac, hm,
              hp] at hret
        · simp [fst_rate_upgrade_on_connect, hfind, hif, hmac, add_rate_upgrade_mac,
            hm] at hret
    · have h1 : (fst_rate_upgrade_on_connect env s group iface addr).st = s := by
        simp [fst_rate_upgrade_on_connect, hfind, hif]
      rw [h1]
      simp [fst_rate_upgrade_on_connect, hfind, hif]

/-- Instance of C8: aa:bb:cc:dd:ee:ff connects to "grp0", then connects again while every
driver operation but the first would fail. -/
theorem on_connect_idempotent_witness :
    (fst_rate_upgrade_on_connect env_dup_fails
      (fst_rate_upgrade_on_connect env_ok state_grp0 grp0 "wlan0" mac_a).st
      grp0 "wlan0" mac_a).ret = 0 ∧
    (fst_rate_upgrade_on_connect env_dup_fails
      (fst_rate_upgrade_on_connect env_ok state_grp0 grp0 "wlan0" mac_a).st
      grp0 "wlan0" mac_a).calls = [] ∧
    (fst_rate_upgrade_on_connect env_dup_fails
      (fst_rate_upgrade_on_connect env_ok state_grp0 grp0 "wlan0" mac_a).st
      grp0 "wlan0" mac_a).fileops = [] ∧
    (fst_rate_upgrade_on_connect env_dup_fails
      (fst_rate_upgrade_on_connect env_ok state_grp0 grp0 "wlan0" mac_a).st
      grp0 "wlan0" mac_a).st =
      (fst_rate_upgrade_on_connect env_ok state_grp0 grp0 "wlan0" mac_a).st :=
  on_connect_idempotent env_ok env_dup_fails state_grp0 grp0 "wlan0" mac_a (by decide)

/-! ## Success paths (C9, C10) -/

/-- C10 (add success): when the lookup finds no group, a master is configured, the
allocations succeed, `N ≥ 1` slaves are resolved, the ACL persist succeeds and
`fst_add_iface` succeeds on every slave, then `fst_rate_upgrade_add_group` returns `0`,
the driver operations invoked are `fst_add_iface` once per slave in the order `0..N-1`
with the master name and the ACL file name and nothing else, the ACL file (when there is a
file name) exists and is empty, and the registry is the old registry with one group
appended at the end: the given name, master, slaves and ACL file name, and an empty Entry
Store.  The ACL file name is the configured one, and none in supplicant mode. -/
theorem add_group_success (env : Env) (s : State) (group : fst_group_info)
    (master : String) (ifaces : List fst_iface_info)
    (hfind : find_rate_upgrade_group s.groups group.id = none)
    (hmaster : env.master = some master)
    (hmalloc : env.malloc_group = true) (hstrdup : env.strdup_groupname = true)
    (hslaves : env.slave_ifaces = some ifaces)
    (hN : 1 ≤ ifaces.length)
    (hpersist : (update_acl_file env s.files
        { groupname := group.id, master := master,
          acl_fname := if env.is_supplicant then none else env.acl_fname,
          slaves := ifaces, acl_macs := [] }).1 = 0)
    (hok : ∀ j, j < ifaces.length → env.fst_add_iface j = 0) :
    (fst_rate_upgrade_add_group env s group).ret = 0 ∧
    (fst_rate_upgrade_add_group env s group).calls =
      (List.range ifaces.length).map
        (fun j => DriverCall.add_iface master j (ifaces.getD j default)
          (if env.is_supplicant then none else env.acl_fname)) ∧
    (∀ fname, (if env.is_supplicant then none else env.acl_fname) = some fname →
      (fst_rate_upgrade_add_group env s group).st.files fname = some []) ∧
    (fst_rate_upgrade_add_group env s group).st.groups =
      s.groups ++
        [{ groupname := group.id, master := master,
           acl_fname := if env.is_supplicant then none else env.acl_fname,
           slaves := ifaces, acl_macs := [] }] := by
  cases ifaces with
  | nil => simp at hN
  | cons i0 irest =>
    have hloop := add_iface_loop_ok env master
      (if env.is_supplicant then none else env.acl_fname) (i0 :: irest) 0 (by simpa using hok)
    simp only [Nat.zero_add] at hloop
    refine ⟨?_, ?_, ?_, ?_⟩
    · simp [fst_rate_upgrade_add_group, hfind, hmaster, hmalloc, hstrdup, hslaves, hpersist,
        hloop]
    · simp [fst_rate_upgrade_add_group, hfind, hmaster, hmalloc, hstrdup, hslaves, hpersist,
        hloop]
    · intro fname hacl
      have hfile := update_acl_file_empty env s.files
        { groupname := group.id, master := master,
          acl_fname := if env.is_supplicant then none else env.acl_fname,
          slaves := i0 :: irest, acl_macs := [] } fname hacl rfl hpersist
      simpa [fst_rate_upgrade_add_group, hfind, hmaster, hmalloc, hstrdup, hslaves, hpersist,
        hloop] using hfile
    · simp [fst_rate_upgrade_add_group, hfind, hmaster, hmalloc, hstrdup, hslaves, hpersist,
        hloop]

/-- Instance of C10: "grp0" is added to the empty registry. -/
theorem add_group_success_witness :
    (fst_rate_upgrade_add_group env_ok state_init grp0).ret = 0 ∧
    (fst_rate_upgrade_add_group env_ok state_init grp0).calls =
      [DriverCall.add_iface "wlan0" 0 ⟨"wlan1"⟩ (some "/tmp/acl0"),
       DriverCall.add_iface "wlan0" 1 ⟨"wlan2"⟩ (some "/tmp/acl0"),
       DriverCall.add_iface "wlan0" 2 ⟨"wlan3"⟩ (some "/tmp/acl0")] ∧
    (fst_rate_upgrade_add_group env_ok state_init grp0).st.files "/tmp/acl0" = some [] ∧
    (fst_rate_upgrade_add_group env_ok state_init grp0).st.groups = [group_grp0] := by
  have h := add_group_success env_ok state_init grp0 "wlan0"
    [⟨"wlan1"⟩, ⟨"wlan2"⟩, ⟨"wlan3"⟩] (by decide) rfl rfl rfl rfl (by decide) (by decide)
    (by decide)
  exact ⟨h.1, h.2.1, h.2.2.1 "/tmp/acl0" rfl, h.2.2.2⟩

/-! ## Lemmas on the string comparisons -/

theorem char_toNat_sub_eq_zero (a b : Char) :
    ((a.toNat : Int) - (b.toNat : Int) = 0) ↔ a = b := by
  constructor
  · intro h
    have h1 : a.toNat = b.toNat := by omega
    have h2 : Char.ofNat a.toNat = Char.ofNat b.toNat := by rw [h1]
    simpa using h2
  · intro h
    subst h
    omega

theorem os_strcmp_eq_zero_iff (a b : List Char) (ha : ∀ c ∈ a, c.toNat ≠ 0)
    (hb : ∀ c ∈ b, c.toNat ≠ 0) : os_strcmp a b = 0 ↔ a = b := by
  induction a generalizing b with
  | nil =>
    cases b with
    | nil => simp [os_strcmp]
    | cons c cs =>
      have hc : c.toNat ≠ 0 := hb c (by simp)
      simp only [os_strcmp]
      constructor
      · intro h; omega
      · intro h; cases h
  | cons x xs ih =>
    cases b with
    | nil =>
      have hx : x.toNat ≠ 0 := ha x (by simp)
      simp only [os_strcmp]
      constructor
      · intro h; omega
      · intro h; cases h
    | cons c cs =>
      have ih1 := ih cs (fun d hd => ha d (by simp [hd])) (fun d hd => hb d (by simp [hd]))
      by_cases hxc : x = c
      · subst hxc
        simp [os_strcmp, ih1]
      · simp [os_strcmp, hxc, char_toNat_sub_eq_zero]

theorem strncmp_eq_zero_iff (a b : List Char) (hb : ∀ c ∈ b, c.toNat ≠ 0) :
    strncmp a b b.length = 0 ↔ b <+: a := by
  induction b generalizing a with
  | nil => simp [strncmp]
  | cons c cs ih =>
    have hc : c.toNat ≠ 0 := hb c (by simp)
    have ih1 := fun a1 => ih a1 (fun d hd => hb d (by simp [hd]))
    cases a with
    | nil =>
      simp only [List.length_cons, strncmp, List.prefix_nil]
      constructor
      · intro h; omega
      · intro h; cases h
    | cons x xs =>
      by_cases hxc : x = c
      · subst hxc
        simp [strncmp, ih1 xs]
      · have hcx : ¬ c = x := fun e => hxc e.symm
        simp [strncmp, hxc, hcx, char_toNat_sub_eq_zero]

theorem group_matches_iff (name : String) (g : rate_upgrade_group) (hname : c_string name) :
    group_matches name g = true ↔ name.data <+: g.groupname.data := by
  unfold group_matches
  rw [decide_eq_true_iff]
  exact strncmp_eq_zero_iff _ _ hname

theorem find_rate_upgrade_group_eq (groups : List rate_upgrade_group) (name : String) :
    find_rate_upgrade_group groups name = dl_list_find (group_matches name) groups := rfl

/-! ## Gating and disconnect (C11 to C14) -/

/-- C11 (master/group gating): when the lookup of the group identifier finds no group, or
the reporting interface name differs from the master of the group found (names being C
strings), both `fst_rate_upgrade_on_connect` and `fst_rate_upgrade_on_disconnect` return
`0`, invoke no driver operation, attempt no file operation and leave the whole state
(registry, every Entry Store, every file) unchanged, whether or not the MAC is in a
store. -/
theorem admission_gating (env : Env) (s : State) (group : fst_group_info) (iface : String)
    (addr : MacAddr) (hiface : c_string iface)
    (hmasters : ∀ g ∈ s.groups, c_string g.master)
    (h : find_rate_upgrade_group s.groups group.id = none ∨
      ∃ gi g, find_rate_upgrade_group s.groups group.id = some (gi, g) ∧ iface ≠ g.master) :
    ((fst_rate_upgrade_on_connect env s group iface addr).ret = 0 ∧
      (fst_rate_upgrade_on_connect env s group iface addr).calls = [] ∧
      (fst_rate_upgrade_on_connect env s group iface addr).fileops = [] ∧
      (fst_rate_upgrade_on_connect env s group iface addr).st = s) ∧
    ((fst_rate_upgrade_on_disconnect env s group iface addr).ret = 0 ∧
      (fst_rate_upgrade_on_disconnect env s group iface addr).calls = [] ∧
      (fst_rate_upgrade_on_disconnect env s group iface addr).fileops = [] ∧
      (fst_rate_upgrade_on_disconnect env s group iface addr).st = s) := by
  rcases h with hnone | ⟨gi, g, hfind, hne⟩
  · simp [fst_rate_upgrade_on_connect, fst_rate_upgrade_on_disconnect, hnone]
  · have hget := (find_rate_upgrade_group_some s.groups group.id gi g hfind).1
    have hg : c_string g.master := hmasters g (List.getElem?_mem hget)
    have hcmp : os_strcmp iface.data g.master.data ≠ 0 := by
      intro h0
      have := (os_strcmp_eq_zero_iff iface.data g.master.data hiface hg).1 h0
      exact hne (String.ext this)
    simp [fst_rate_upgrade_on_connect, fst_rate_upgrade_on_disconnect, hfind, hcmp]

/-- Instance of C11: an event for "grp0" reported on the slave interface "wlan1", for a MAC
that is in the Entry Store. -/
theorem admission_gating_witness :
    ((fst_rate_upgrade_on_connect env_ok state_connected grp0 "wlan1" mac_a).ret = 0 ∧
      (fst_rate_upgrade_on_connect env_ok state_connected grp0 "wlan1" mac_a).calls = [] ∧
      (fst_rate_upgrade_on_connect env_ok state_connected grp0 "wlan1" mac_a).fileops = [] ∧
      (fst_rate_upgrade_on_connect env_ok state_connected grp0 "wlan1" mac_a).st =
        state_connected) ∧
    ((fst_rate_upgrade_on_disconnect env_ok state_connected grp0 "wlan1" mac_a).ret = 0 ∧
      (fst_rate_upgrade_on_disconnect env_ok state_connected grp0 "wlan1" mac_a).calls = [] ∧
      (fst_rate_upgrade_on_disconnect env_ok state_connected grp0 "wlan1" mac_a).fileops = [] ∧
      (fst_rate_upgrade_on_disconnect env_ok state_connected grp0 "wlan1" mac_a).st =
        state_connected) :=
  admission_gating env_ok state_connected grp0 "wlan1" mac_a (by decide) (by decide)
    (Or.inr ⟨0, { group_grp0 with acl_macs := [mac_a, mac_b] }, by decide, by decide⟩)

theorem dedup_connection_loop_calls (env : Env) (acl : Option String)
    (l : List fst_iface_info) (i : Nat) (res : Int) :
    (dedup_connection_loop env acl i l res).1 =
      (List.range l.length).map
        (fun j => DriverCall.dedup_connection (i + j) (l.getD j default) acl) := by
  induction l generalizing i res with
  | nil => simp [dedup_connection_loop]
  | cons x xs ih =>
    simp only [dedup_connection_loop, ih]
    rw [List.length_cons, List.range_succ_eq_map xs.length]
    simp [List.map_map, Function.comp_def, Nat.add_assoc, Nat.add_comm 1]

theorem dedup_connection_loop_ret_ok (env : Env) (acl : Option String)
    (l : List fst_iface_info) (i : Nat) (res : Int)
    (hok : ∀ j, j < l.length → env.fst_dedup_connection (i + j) = 0) :
    (dedup_connection_loop env acl i l res).2 = res := by
  induction l generalizing i res with
  | nil => simp [dedup_connection_loop]
  | cons x xs ih =>
    have h0 : env.fst_dedup_connection i = 0 := by simpa using hok 0 (by simp)
    have hok1 : ∀ j, j < xs.length → env.fst_dedup_connection (i + 1 + j) = 0 := by
      intro j hj
      have := hok (j + 1) (by simpa using hj)
      rwa [show i + (j + 1) = i + 1 + j by omega] at this
    simp [dedup_connection_loop, h0, ih (i + 1) _ hok1]

theorem dedup_connection_loop_ret_failed (env : Env) (acl : Option String)
    (l : List fst_iface_info) (i : Nat) :
    (dedup_connection_loop env acl i l (-1)).2 = -1 := by
  induction l generalizing i with
  | nil => simp [dedup_connection_loop]
  | cons x xs ih =>
    by_cases h0 : env.fst_dedup_connection i = 0
    · simp [dedup_connection_loop, h0, ih]
    · simp [dedup_connection_loop, h0, ih]

theorem dedup_connection_loop_ret_fail (env : Env) (acl : Option String)
    (l : List fst_iface_info) (i : Nat) (res : Int)
    (hfail : ∃ j, j < l.length ∧ env.fst_dedup_connection (i + j) ≠ 0) :
    (dedup_connection_loop env acl i l res).2 = -1 := by
  induction l generalizing i res with
  | nil =>
    obtain ⟨j, hj, _⟩ := hfail
    simp at hj
  | cons x xs ih =>
    by_cases h0 : env.fst_dedup_connection i = 0
    · obtain ⟨j, hj, hjf⟩ := hfail
      cases j with
      | zero => exact absurd h0 (by simpa using hjf)
      | succ j =>
        have hj1 : j < xs.length := by simpa using hj
        have hjf1 : env.fst_dedup_connection (i + 1 + j) ≠ 0 := by
          rwa [show i + (j + 1) = i + 1 + j by omega] at hjf
        simp only [dedup_connection_loop, h0, ne_eq, not_true_eq_false, if_false]
        exact ih (i + 1) res ⟨j, hj1, hjf1⟩
    · simp [dedup_connection_loop, h0, dedup_connection_loop_ret_failed]

theorem dl_list_find_eraseIdx (l : List MacAddr) (addr : MacAddr) (p : Nat) (a : MacAddr)
    (h : dl_list_find (fun x => decide (os_memcmp x.bytes addr.bytes ETH_ALEN = 0)) l =
      some (p, a)) :
    a = addr ∧ l.eraseIdx p = l.erase addr := by
  induction l generalizing p with
  | nil => simp [dl_list_find] at h
  | cons x xs ih =>
    by_cases hx : x = addr
    · subst hx
      have hx1 : os_memcmp x.bytes x.bytes ETH_ALEN = 0 := (os_memcmp_bytes x x).2 rfl
      simp [dl_list_find, hx1] at h
      obtain ⟨h1, h2⟩ := h
      subst h1; subst h2
      simp
    · have hx1 : ¬ os_memcmp x.bytes addr.bytes ETH_ALEN = 0 :=
        fun e => hx ((os_memcmp_bytes x addr).1 e)
      simp only [dl_list_find, hx1, decide_False, Bool.false_eq_true, if_false,
        Option.map_eq_some'] at h
      obtain ⟨⟨p1, a1⟩, h1, h2⟩ := h
      simp only [Prod.mk.injEq] at h2
      obtain ⟨h2, h3⟩ := h2
      subst h2; subst h3
      obtain ⟨k1, k2⟩ := ih p1 h1
      refine ⟨k1, ?_⟩
      simp [List.erase_cons, hx, k2]

theorem find_rate_upgrade_mac_some (g : rate_upgrade_group) (addr : MacAddr) (p : Nat)
    (h : find_rate_upgrade_mac g addr = some p) :
    g.acl_macs.eraseIdx p = g.acl_macs.erase addr := by
  unfold find_rate_upgrade_mac at h
  rw [Option.map_eq_some'] at h
  obtain ⟨⟨p1, a1⟩, h1, h2⟩ := h
  simp only at h2
  subst h2
  exact (dl_list_find_eraseIdx g.acl_macs addr p1 a1 h1).2

/-- C12 (best-effort disconnect): for a group found by the lookup, an event on its master
interface and a MAC present in its Entry Store, when the ACL persist succeeds
`fst_rate_upgrade_on_disconnect` invokes `fst_dedup_connection` exactly once on every
slave in slave order whatever each call returns, the Entry Store of the group is the old
store with that MAC removed (the other MACs and their order kept), and the call returns
`-1` exactly when at least one `fst_dedup_connection` failed and `0` exactly when none
did. -/
theorem on_disconnect_best_effort (env : Env) (s : State) (group : fst_group_info)
    (iface : String) (addr : MacAddr) (gi : Nat) (g : rate_upgrade_group)
    (hfind : find_rate_upgrade_group s.groups group.id = some (gi, g))
    (hiface : iface = g.master)
    (hmac : addr ∈ g.acl_macs)
    (hpersist : (update_acl_file env s.files
        { g with acl_macs := g.acl_macs.erase addr }).1 = 0) :
    (fst_rate_upgrade_on_disconnect env s group iface addr).calls =
      (List.range g.slaves.length).map
        (fun j => DriverCall.dedup_connection j (g.slaves.getD j default) g.acl_fname) ∧
    (fst_rate_upgrade_on_disconnect env s group iface addr).st.groups =
      s.groups.set gi { g with acl_macs := g.acl_macs.erase addr } ∧
    (fst_rate_upgrade_on_disconnect env s group iface addr).st.groups[gi]? =
      some { g with acl_macs := g.acl_macs.erase addr } ∧
    ((fst_rate_upgrade_on_disconnect env s group iface addr).ret = -1 ↔
      ∃ j, j < g.slaves.length ∧ env.fst_dedup_connection j ≠ 0) ∧
    ((fst_rate_upgrade_on_disconnect env s group iface addr).ret = 0 ↔
      ∀ j, j < g.slaves.length → env.fst_dedup_connection j = 0) := by
  subst hiface
  obtain ⟨p, hp⟩ := find_rate_upgrade_mac_of_mem g addr hmac
  have herase := find_rate_upgrade_mac_some g addr p hp
  have hget := (find_rate_upgrade_group_some s.groups group.id gi g hfind).1
  have hpersist1 : (update_acl_file env s.files (del_rate_upgrade_mac g p)).1 = 0 := by
    simpa [del_rate_upgrade_mac, herase] using hpersist
  have hst : fst_rate_upgrade_on_disconnect env s group g.master addr =
      ⟨(dedup_connection_loop env g.acl_fname 0 g.slaves 0).2,
        { s with groups := s.groups.set gi { g with acl_macs := g.acl_macs.erase addr },
                 files := (update_acl_file env s.files
                   { g with acl_macs := g.acl_macs.erase addr }).2.1 },
        (dedup_connection_loop env g.acl_fname 0 g.slaves 0).1,
        (update_acl_file env s.files { g with acl_macs := g.acl_macs.erase addr }).2.2⟩ := by
    simp only [fst_rate_upgrade_on_disconnect, hfind, os_strcmp_self, hp, hpersist1, ne_eq,
      not_true_eq_false, if_false]
    simp [del_rate_upgrade_mac, herase]
  rw [hst]
  refine ⟨?_, rfl, ?_, ?_, ?_⟩
  · simpa using dedup_connection_loop_calls env g.acl_fname g.slaves 0 0
  · exact getElem_set_self_of_getElem _ _ _ _ hget
  · constructor
    · intro hret
      by_contra hno
      have hall : ∀ j, j < g.slaves.length → env.fst_dedup_connection (0 + j) = 0 := by
        intro j hj
        by_contra hj0
        exact hno ⟨j, hj, by simpa using hj0⟩
      have := dedup_connection_loop_ret_ok env g.acl_fname g.slaves 0 0 hall
      simp only at hret
      rw [this] at hret
      cases hret
    · intro hex
      obtain ⟨j, hj, hjf⟩ := hex
      exact dedup_connection_loop_ret_fail env g.acl_fname g.slaves 0 0
        ⟨j, hj, by simpa using hjf⟩
  · constructor
    · intro hret j hj
      by_contra hj0
      have := dedup_connection_loop_ret_fail env g.acl_fname g.slaves 0 0
        ⟨j, hj, by simpa using hj0⟩
      simp only at hret
      rw [this] at hret
      cases hret
    · intro hall
      exact dedup_connection_loop_ret_ok env g.acl_fname g.slaves 0 0
        (by simpa using hall)

/-- Instance of C12: aa:bb:cc:dd:ee:ff disconnects from "grp0" while
`fst_dedup_connection` fails on the second of three slaves. -/
theorem on_disconnect_best_effort_witness :
    (fst_rate_upgrade_on_disconnect env_dedup_fails state_connected grp0 "wlan0" mac_a).calls =
      [DriverCall.dedup_connection 0 ⟨"wlan1"⟩ (some "/tmp/acl0"),
       DriverCall.dedup_connection 1 ⟨"wlan2"⟩ (some "/tmp/acl0"),
       DriverCall.dedup_connection 2 ⟨"wlan3"⟩ (some "/tmp/acl0")] ∧
    (fst_rate_upgrade_on_disconnect env_dedup_fails state_connected grp0 "wlan0"
      mac_a).st.groups = [{ group_grp0 with acl_macs := [mac_b] }] ∧
    (fst_rate_upgrade_on_disconnect env_dedup_fails state_connected grp0 "wlan0" mac_a).ret =
      -1 := by
  have h := on_disconnect_best_effort env_dedup_fails state_connected grp0 "wlan0" mac_a 0
    { group_grp0 with acl_macs := [mac_a, mac_b] } (by decide) rfl (by decide) (by decide)
  exact ⟨h.1, h.2.1, h.2.2.2.1.2 ⟨1, by decide, by decide⟩⟩

/-- Counterexample to C13 as stated: aa:bb:cc:dd:ee:ff and 02:00:00:00:00:01 are admitted
in "grp0" (three slaves); aa:bb:cc:dd:ee:ff disconnects while `fopen` fails.  The MAC is
removed from the Entry Store, the call returns `-1`, and `fst_dedup_connection` is invoked
on no slave. -/
theorem on_disconnect_cleanup_counterexample :
    (state_connected.groups.map rate_upgrade_group.acl_macs = [[mac_a, mac_b]] ∧
      state_connected.groups.map rate_upgrade_group.slaves =
        [[⟨"wlan1"⟩, ⟨"wlan2"⟩, ⟨"wlan3"⟩]]) ∧
    (fst_rate_upgrade_on_disconnect env_fopen_fails state_connected grp0 "wlan0" mac_a).ret =
      -1 ∧
    (fst_rate_upgrade_on_disconnect env_fopen_fails state_connected grp0 "wlan0"
      mac_a).st.groups.map rate_upgrade_group.acl_macs = [[mac_b]] ∧
    (fst_rate_upgrade_on_disconnect env_fopen_fails state_connected grp0 "wlan0"
      mac_a).calls = [] := by
  decide

/-- C13 as amended: for a group found by the lookup, an event on its master interface and
a MAC present in its Entry Store, `fst_rate_upgrade_on_disconnect` removes the MAC from
the store in every outcome; when the ACL persist succeeds it invokes
`fst_dedup_connection` once on every slave of the group in slave order; when the ACL
persist fails it returns `-1` and invokes no driver operation. -/
theorem on_disconnect_cleanup (env : Env) (s : State) (group : fst_group_info)
    (iface : String) (addr : MacAddr) (gi : Nat) (g : rate_upgrade_group)
    (hfind : find_rate_upgrade_group s.groups group.id = some (gi, g))
    (hiface : iface = g.master)
    (hmac : addr ∈ g.acl_macs) :
    (fst_rate_upgrade_on_disconnect env s group iface addr).st.groups =
      s.groups.set gi { g with acl_macs := g.acl_macs.erase addr } ∧
    ((update_acl_file env s.files { g with acl_macs := g.acl_macs.erase addr }).1 = 0 →
      (fst_rate_upgrade_on_disconnect env s group iface addr).calls =
        (List.range g.slaves.length).map
          (fun j => DriverCall.dedup_connection j (g.slaves.getD j default) g.acl_fname)) ∧
    ((update_acl_file env s.files { g with acl_macs := g.acl_macs.erase addr }).1 ≠ 0 →
      (fst_rate_upgrade_on_disconnect env s group iface addr).ret = -1 ∧
      (fst_rate_upgrade_on_disconnect env s group iface addr).calls = []) := by
  subst hiface
  obtain ⟨p, hp⟩ := find_rate_upgrade_mac_of_mem g addr hmac
  have herase := find_rate_upgrade_mac_some g addr p hp
  have hdel : del_rate_upgrade_mac g p = { g with acl_macs := g.acl_macs.erase addr } := by
    simp [del_rate_upgrade_mac, herase]
  refine ⟨?_, ?_, ?_⟩
  · simp only [fst_rate_upgrade_on_disconnect, hfind, os_strcmp_self, hp, ne_eq,
      not_true_eq_false, if_false, hdel]
    split <;> rfl
  · intro hpersist
    simp only [fst_rate_upgrade_on_disconnect, hfind, os_strcmp_self, hp, ne_eq,
      not_true_eq_false, if_false, hdel, hpersist]
    simpa using dedup_connection_loop_calls env g.acl_fname g.slaves 0 0
  · intro hpersist
    simp [fst_rate_upgrade_on_disconnect, hfind, os_strcmp_self, hp, hdel, hpersist]

/-- Instance of C13 as amended: the disconnect of the counterexample, and the same
disconnect with a working file system. -/
theorem on_disconnect_cleanup_witness :
    (fst_rate_upgrade_on_disconnect env_fopen_fails state_connected grp0 "wlan0"
      mac_a).st.groups = [{ group_grp0 with acl_macs := [mac_b] }] ∧
    ((fst_rate_upgrade_on_disconnect env_fopen_fails state_connected grp0 "wlan0"
      mac_a).ret = -1 ∧
     (fst_rate_upgrade_on_disconnect env_fopen_fails state_connected grp0 "wlan0"
      mac_a).calls = []) ∧
    (fst_rate_upgrade_on_disconnect env_ok state_connected grp0 "wlan0" mac_a).calls =
      [DriverCall.dedup_connection 0 ⟨"wlan1"⟩ (some "/tmp/acl0"),
       DriverCall.dedup_connection 1 ⟨"wlan2"⟩ (some "/tmp/acl0"),
       DriverCall.dedup_connection 2 ⟨"wlan3"⟩ (some "/tmp/acl0")] :=
  ⟨(on_disconnect_cleanup env_fopen_fails state_connected grp0 "wlan0" mac_a 0
      { group_grp0 with acl_macs := [mac_a, mac_b] } (by decide) rfl (by decide)).1,
    (on_disconnect_cleanup env_fopen_fails state_connected grp0 "wlan0" mac_a 0
      { group_grp0 with acl_macs := [mac_a, mac_b] } (by decide) rfl (by decide)).2.2
      (by decide),
    (on_disconnect_cleanup env_ok state_connected grp0 "wlan0" mac_a 0
      { group_grp0 with acl_macs := [mac_a, mac_b] } (by decide) rfl (by decide)).2.1
      (by decide)⟩

/-- C14 (disconnect of a MAC that is not admitted): for a group found by the lookup and an
event on its master interface, when the MAC is not in the group's Entry Store
`fst_rate_upgrade_on_disconnect` returns `-1`, invokes no driver operation, attempts no
file operation, and leaves the whole state (registry, Entry Stores, files) unchanged. -/
theorem on_disconnect_not_admitted (env : Env) (s : State) (group : fst_group_info)
    (iface : String) (addr : MacAddr) (gi : Nat) (g : rate_upgrade_group)
    (hfind : find_rate_upgrade_group s.groups group.id = some (gi, g))
    (hiface : iface = g.master)
    (hmac : addr ∉ g.acl_macs) :
    (fst_rate_upgrade_on_disconnect env s group iface addr).ret = -1 ∧
    (fst_rate_upgrade_on_disconnect env s group iface addr).calls = [] ∧
    (fst_rate_upgrade_on_disconnect env s group iface addr).fileops = [] ∧
    (fst_rate_upgrade_on_disconnect env s group iface addr).st = s := by
  subst hiface
  have hnone := (find_rate_upgrade_mac_eq_none g addr).2 hmac
  simp [fst_rate_upgrade_on_disconnect, hfind, os_strcmp_self, hnone]

/-- Instance of C14: aa:bb:cc:dd:ee:ff disconnects from "grp0" without being admitted. -/
theorem on_disconnect_not_admitted_witness :
    (fst_rate_upgrade_on_disconnect env_ok state_grp0 grp0 "wlan0" mac_a).ret = -1 ∧
    (fst_rate_upgrade_on_disconnect env_ok state_grp0 grp0 "wlan0" mac_a).calls = [] ∧
    (fst_rate_upgrade_on_disconnect env_ok state_grp0 grp0 "wlan0" mac_a).fileops = [] ∧
    (fst_rate_upgrade_on_disconnect env_ok state_grp0 grp0 "wlan0" mac_a).st = state_grp0 :=
  on_disconnect_not_admitted env_ok state_grp0 grp0 "wlan0" mac_a 0 group_grp0
    (by decide) rfl (by decide)

/-! ## Remove group (C15 to C17) -/

theorem del_iface_loop_eq (l : List fst_iface_info) (i : Nat) :
    del_iface_loop i l =
      (List.range l.length).map (fun j => DriverCall.del_iface (i + j) (l.getD j default)) := by
  induction l generalizing i with
  | nil => simp [del_iface_loop]
  | cons x xs ih =>
    simp only [del_iface_loop, ih]
    rw [List.length_cons, List.range_succ_eq_map xs.length]
    simp [List.map_map, Function.comp_def, Nat.add_assoc, Nat.add_comm 1]

/-- C15 (remove group): whatever the collaborators answer, when the lookup of the group
identifier finds no group `fst_rate_upgrade_del_group` returns `-1`, invokes no driver
operation and leaves the state unchanged; when it finds a group with `N` slaves,
`fst_del_iface` is invoked exactly once on every slave in the order `0..N-1` and nothing
else, and the registry is the old registry with exactly that group taken out: the groups
before it stay at their positions, the groups after it move up by one, contents
unchanged. -/
theorem del_group_removes (env : Env) (s : State) (group : fst_group_info) :
    (find_rate_upgrade_group s.groups group.id = none →
      (step env s (Call.del_group group)).ret = -1 ∧
      (step env s (Call.del_group group)).calls = [] ∧
      (step env s (Call.del_group group)).st = s) ∧
    (∀ gi g, find_rate_upgrade_group s.groups group.id = some (gi, g) →
      s.groups[gi]? = some g ∧
      (step env s (Call.del_group group)).calls =
        (List.range g.slaves.length).map
          (fun j => DriverCall.del_iface j (g.slaves.getD j default)) ∧
      (step env s (Call.del_group group)).st.groups = s.groups.eraseIdx gi ∧
      (∀ j, j < gi → (step env s (Call.del_group group)).st.groups[j]? = s.groups[j]?) ∧
      (∀ j, gi ≤ j →
        (step env s (Call.del_group group)).st.groups[j]? = s.groups[j + 1]?)) := by
  constructor
  · intro hnone
    simp [step, fst_rate_upgrade_del_group, hnone]
  · intro gi g hfind
    have hget := (find_rate_upgrade_group_some s.groups group.id gi g hfind).1
    have hgroups : (step env s (Call.del_group group)).st.groups = s.groups.eraseIdx gi := by
      simp [step, fst_rate_upgrade_del_group, hfind]
    refine ⟨hget, ?_, hgroups, ?_, ?_⟩
    · simp only [step, fst_rate_upgrade_del_group, hfind]
      simpa using del_iface_loop_eq g.slaves 0
    · intro j hj
      rw [hgroups]
      exact List.getElem?_eraseIdx_of_lt _ _ _ hj
    · intro j hj
      rw [hgroups]
      exact List.getElem?_eraseIdx_of_ge _ _ _ hj

/-- Instance of C15: "grp0" is removed from a registry that holds "grp0" and "grp01", with
every `fst_del_iface` failing; then "grp0" is looked up in the empty registry. -/
theorem del_group_removes_witness :
    ((step env_del_fails state_two_groups (Call.del_group grp0)).calls =
        [DriverCall.del_iface 0 ⟨"wlan1"⟩, DriverCall.del_iface 1 ⟨"wlan2"⟩,
         DriverCall.del_iface 2 ⟨"wlan3"⟩] ∧
      (step env_del_fails state_two_groups (Call.del_group grp0)).st.groups =
        [{ group_grp0 with groupname := "grp01" }]) ∧
    (step env_ok state_init (Call.del_group grp0)).ret = -1 :=
  ⟨⟨((del_group_removes env_del_fails state_two_groups grp0).2 0 group_grp0
        (by decide)).2.1,
      ((del_group_removes env_del_fails state_two_groups grp0).2 0 group_grp0
        (by decide)).2.2.1⟩,
    ((del_group_removes env_ok state_init grp0).1 (by decide)).1⟩

/-- Counterexample to C16 as stated: "grp0" is registered with three slaves and every
`fst_del_iface` fails; `fst_rate_upgrade_del_group` invokes it on the three slaves, removes
the group, and returns `0`. -/
theorem del_group_return_counterexample :
    (env_del_fails.fst_del_iface 0 ≠ 0 ∧ env_del_fails.fst_del_iface 1 ≠ 0 ∧
      env_del_fails.fst_del_iface 2 ≠ 0) ∧
    (step env_del_fails state_grp0 (Call.del_group grp0)).calls =
      [DriverCall.del_iface 0 ⟨"wlan1"⟩, DriverCall.del_iface 1 ⟨"wlan2"⟩,
       DriverCall.del_iface 2 ⟨"wlan3"⟩] ∧
    (step env_del_fails state_grp0 (Call.del_group grp0)).st.groups = [] ∧
    (step env_del_fails state_grp0 (Call.del_group grp0)).ret = 0 := by
  decide

/-- C16 as amended: for every group found by the lookup, `fst_rate_upgrade_del_group`
removes the group from the registry and returns `0` whatever the `fst_del_iface` calls
return (a failure is only logged); it returns `-1` only when the lookup finds no group. -/
theorem del_group_return (env : Env) (s : State) (group : fst_group_info) (gi : Nat)
    (g : rate_upgrade_group)
    (hfind : find_rate_upgrade_group s.groups group.id = some (gi, g)) :
    (step env s (Call.del_group group)).ret = 0 ∧
    (step env s (Call.del_group group)).st.groups = s.groups.eraseIdx gi ∧
    (∀ s1 group1, (step env s1 (Call.del_group group1)).ret = -1 ↔
      find_rate_upgrade_group s1.groups group1.id = none) := by
  refine ⟨?_, ?_, ?_⟩
  · simp [step, fst_rate_upgrade_del_group, hfind]
  · simp [step, fst_rate_upgrade_del_group, hfind]
  · intro s1 group1
    cases h1 : find_rate_upgrade_group s1.groups group1.id with
    | none => simp [step, fst_rate_upgrade_del_group, h1]
    | some r => simp [step, fst_rate_upgrade_del_group, h1]

/-- Instance of C16 as amended: the removal of the counterexample. -/
theorem del_group_return_witness :
    (step env_del_fails state_grp0 (Call.del_group grp0)).ret = 0 ∧
    (step env_del_fails state_grp0 (Call.del_group grp0)).st.groups = [] :=
  ⟨(del_group_return env_del_fails state_grp0 grp0 0 group_grp0 (by decide)).1,
    (del_group_return env_del_fails state_grp0 grp0 0 group_grp0 (by decide)).2.1⟩

theorem dl_list_find_countP_eraseIdx {α : Type} (p : α → Bool) (l : List α) (i : Nat) (a : α)
    (h : dl_list_find p l = some (i, a)) :
    (l.eraseIdx i).countP p = l.countP p - 1 := by
  induction l generalizing i with
  | nil => simp [dl_list_find] at h
  | cons x xs ih =>
    by_cases hx : p x = true
    · simp [dl_list_find, hx] at h
      obtain ⟨h1, _⟩ := h
      subst h1
      simp [List.countP_cons, hx]
    · simp only [dl_list_find, hx, Bool.false_eq_true, if_false, Option.map_eq_some'] at h
      obtain ⟨⟨i1, a1⟩, h1, h2⟩ := h
      simp only [Prod.mk.injEq] at h2
      obtain ⟨h2, h3⟩ := h2
      subst h2; subst h3
      simp [List.countP_cons, hx, ih i1 h1]

/-- Counterexample to C17 as stated: "grp0" and then "grp01" are added after
`fst_rate_upgrade_init`; `fst_rate_upgrade_del_group` for "grp0" returns `0` and removes
"grp0"; the lookup of "grp0" that follows returns the group "grp01". -/
theorem del_group_then_find_counterexample :
    state_two_groups.groups.map rate_upgrade_group.groupname = ["grp0", "grp01"] ∧
    (step env_ok state_two_groups (Call.del_group grp0)).ret = 0 ∧
    (step env_ok state_two_groups (Call.del_group grp0)).st.groups.map
      rate_upgrade_group.groupname = ["grp01"] ∧
    find_rate_upgrade_group
      (step env_ok state_two_groups (Call.del_group grp0)).st.groups grp0.id =
      some (0, { group_grp0 with groupname := "grp01" }) := by
  decide

/-- C17 as amended: in every state, when `fst_rate_upgrade_del_group` returns `0` for a
group identifier and at most one registered group passes the test of the lookup for that
identifier (agrees with it on its first `strlen` characters), then the lookup that follows
returns no group, a second `fst_rate_upgrade_del_group` returns `-1`, and
`fst_rate_upgrade_on_connect` for that identifier is a no-op. -/
theorem del_group_then_find (env env2 : Env) (s : State) (group : fst_group_info)
    (iface : String) (addr : MacAddr)
    (hret : (step env s (Call.del_group group)).ret = 0)
    (hone : s.groups.countP (group_matches group.id) ≤ 1) :
    find_rate_upgrade_group (step env s (Call.del_group group)).st.groups group.id = none ∧
    (step env2 (step env s (Call.del_group group)).st (Call.del_group group)).ret = -1 ∧
    (step env2 (step env s (Call.del_group group)).st
      (Call.on_connect group iface addr)).ret = 0 ∧
    (step env2 (step env s (Call.del_group group)).st
      (Call.on_connect group iface addr)).calls = [] ∧
    (step env2 (step env s (Call.del_group group)).st
      (Call.on_connect group iface addr)).st = (step env s (Call.del_group group)).st := by
  cases hfind : find_rate_upgrade_group s.groups group.id with
  | none => simp [step, fst_rate_upgrade_del_group, hfind] at hret
  | some r =>
    obtain ⟨gi, g⟩ := r
    have hgroups : (step env s (Call.del_group group)).st.groups = s.groups.eraseIdx gi := by
      simp [step, fst_rate_upgrade_del_group, hfind]
    have hcount := dl_list_find_countP_eraseIdx (group_matches group.id) s.groups gi g hfind
    have hzero : (s.groups.eraseIdx gi).countP (group_matches group.id) = 0 := by omega
    have hnone : find_rate_upgrade_group (step env s (Call.del_group group)).st.groups
        group.id = none := by
      rw [hgroups, find_rate_upgrade_group_eq, dl_list_find_eq_none]
      intro a ha
      have := (List.countP_eq_zero.1 hzero) a ha
      simpa using this
    generalize (step env s (Call.del_group group)).st = s1 at hnone ⊢
    refine ⟨hnone, ?_, ?_, ?_, ?_⟩
    · simp [step, fst_rate_upgrade_del_group, hnone]
    · simp [step, fst_rate_upgrade_on_connect, hnone]
    · simp [step, fst_rate_upgrade_on_connect, hnone]
    · simp [step, fst_rate_upgrade_on_connect, hnone]

/-- Instance of C17 as amended: "grp0" is the only registered group; after its removal
the lookup of "grp0" finds nothing. -/
theorem del_group_then_find_witness :
    find_rate_upgrade_group (step env_ok state_grp0 (Call.del_group grp0)).st.groups
      grp0.id = none ∧
    (step env_ok (step env_ok state_grp0 (Call.del_group grp0)).st
      (Call.del_group grp0)).ret = -1 :=
  ⟨(del_group_then_find env_ok env_ok state_grp0 grp0 "wlan0" mac_a (by decide)
      (by decide)).1,
    (del_group_then_find env_ok env_ok state_grp0 grp0 "wlan0" mac_a (by decide)
      (by decide)).2.1⟩

/-! ## ACL serialization, lookup, frame (C18 to C20) -/

theorem write_acl_lines_all_ok (env : Env) (fname : String) (i : Nat) (macs : List MacAddr)
    (h : ∀ j, j < macs.length → env.fprintf_ok (i + j) = true) :
    (write_acl_lines env fname i macs).1 = true := by
  induction macs generalizing i with
  | nil => simp [write_acl_lines]
  | cons p rest ih =>
    have h0 : env.fprintf_ok i = true := by simpa using h 0 (by simp)
    have h1 : ∀ j, j < rest.length → env.fprintf_ok (i + 1 + j) = true := by
      intro j hj
      have := h (j + 1) (by simpa using hj)
      rwa [show i + (j + 1) = i + 1 + j by omega] at this
    simp [write_acl_lines, h0, ih (i + 1) h1]

theorem hex_digit_eq (n : Nat) (h : n < 16) : hex_digit n = hex_digits.getD n '0' := by
  have key : ∀ k, k < 16 → hex_digit k = hex_digits.getD k '0' := by decide
  exact key n h

theorem fmt_02x_eq (b : u8) :
    fmt_02x b = [hex_digits.getD (b.val / 16) '0', hex_digits.getD (b.val % 16) '0'] := by
  have h1 : b.val / 16 < 16 := by have := b.isLt; omega
  have h2 : b.val % 16 < 16 := by omega
  simp [fmt_02x, hex_digit_eq _ h1, hex_digit_eq _ h2]

theorem acl_content_eq_flatten (macs : List MacAddr) :
    acl_content macs = (macs.map mac_line).flatten := by
  induction macs with
  | nil => simp [acl_content]
  | cons p rest ih => simp [acl_content, ih]

theorem mac_line_length (m : MacAddr) : (mac_line m).length = 18 := by
  simp [mac_line, mac_str, fmt_02x]

theorem acl_content_length (macs : List MacAddr) :
    (acl_content macs).length = 18 * macs.length := by
  induction macs with
  | nil => simp [acl_content]
  | cons p rest ih =>
    simp only [acl_content, List.length_append, mac_line_length, ih, List.length_cons]
    omega

/-- C18 (ACL serialization format): when the group has an ACL filename and `fopen` and
every `fprintf` succeed, `update_acl_file` returns `0`, and when `fclose` succeeds as well
(every file operation succeeds) it replaces the content of that file (no other file) by
the concatenation, over the MACs of the Entry Store in list order, of one line per MAC:
the six octets as two lowercase hexadecimal digits each, separated by ':' and followed by
one newline, 18 characters per MAC and nothing else, so the empty store gives the empty
file; when `fclose` fails the file holds the leading part of that text that was flushed;
when the group has no ACL filename it returns `0`, attempts no file operation and leaves
every file as it was. -/
theorem update_acl_file_format (env : Env) (files : Files) (g : rate_upgrade_group) :
    (g.acl_fname = none → update_acl_file env files g = (0, files, [])) ∧
    (∀ fname, g.acl_fname = some fname → env.fopen_ok = true →
      (∀ i, i < g.acl_macs.length → env.fprintf_ok i = true) →
      (update_acl_file env files g).1 = 0 ∧
      (update_acl_file env files g).2.1 =
        files.write fname (if env.fclose_ok then acl_content g.acl_macs
          else (acl_content g.acl_macs).take env.fclose_flushed) ∧
      (env.fclose_ok = true →
        (update_acl_file env files g).2.1 = files.write fname (acl_content g.acl_macs) ∧
        (update_acl_file env files g).2.1 fname =
          some ((g.acl_macs.map mac_line).flatten))) ∧
    acl_content [] = [] ∧
    (acl_content g.acl_macs).length = 18 * g.acl_macs.length ∧
    (∀ m : MacAddr, (mac_line m).length = 18 ∧
      mac_line m =
        [hex_digits.getD (m.o0.val / 16) '0', hex_digits.getD (m.o0.val % 16) '0', ':',
         hex_digits.getD (m.o1.val / 16) '0', hex_digits.getD (m.o1.val % 16) '0', ':',
         hex_digits.getD (m.o2.val / 16) '0', hex_digits.getD (m.o2.val % 16) '0', ':',
         hex_digits.getD (m.o3.val / 16) '0', hex_digits.getD (m.o3.val % 16) '0', ':',
         hex_digits.getD (m.o4.val / 16) '0', hex_digits.getD (m.o4.val % 16) '0', ':',
         hex_digits.getD (m.o5.val / 16) '0', hex_digits.getD (m.o5.val % 16) '0', '\n']) := by
  refine ⟨?_, ?_, rfl, acl_content_length _, ?_⟩
  · intro hacl
    simp [update_acl_file, hacl]
  · intro fname hacl hopen hprintf
    have hw := write_acl_lines_all_ok env fname 0 g.acl_macs (by simpa using hprintf)
    have hc := write_acl_lines_ok env fname 0 g.acl_macs hw
    refine ⟨?_, ?_, ?_⟩
    · simp [update_acl_file, hacl, hopen, hw]
    · simp [update_acl_file, hacl, hopen, hc]
    · intro hclose
      refine ⟨?_, ?_⟩
      · simp [update_acl_file, hacl, hopen, hclose, hc]
      · simp [update_acl_file, hacl, hopen, hclose, hc, Files.write, acl_content_eq_flatten]
  · intro m
    refine ⟨mac_line_length m, ?_⟩
    simp [mac_line, mac_str, fmt_02x_eq]

/-- Instance of C18: the file written for the store aa:bb:cc:dd:ee:ff, 02:00:00:00:00:01. -/
theorem update_acl_file_format_witness :
    (update_acl_file env_ok state_init.files
      { group_grp0 with acl_macs := [mac_a, mac_b] }).2.1 "/tmp/acl0" =
      some "aa:bb:cc:dd:ee:ff\n02:00:00:00:00:01\n".data ∧
    update_acl_file env_fopen_fails state_init.files
      { group_grp0 with acl_fname := none, acl_macs := [mac_a, mac_b] } =
      (0, state_init.files, []) :=
  ⟨(((update_acl_file_format env_ok state_init.files
      { group_grp0 with acl_macs := [mac_a, mac_b] }).2.1 "/tmp/acl0" rfl rfl
      (fun _ _ => rfl)).2.2 rfl).2,
    (update_acl_file_format env_fopen_fails state_init.files
      { group_grp0 with acl_fname := none, acl_macs := [mac_a, mac_b] }).1 rfl⟩

theorem dl_list_find_iff {α : Type} (p : α → Bool) (l : List α) (i : Nat) (a : α) :
    dl_list_find p l = some (i, a) ↔
      l[i]? = some a ∧ p a = true ∧ ∀ j, j < i → ∀ b, l[j]? = some b → p b = false := by
  constructor
  · exact dl_list_find_some p l i a
  · induction l generalizing i with
    | nil => intro h; simp at h
    | cons x xs ih =>
      intro h
      obtain ⟨h1, h2, h3⟩ := h
      cases i with
      | zero =>
        simp at h1
        subst h1
        simp [dl_list_find, h2]
      | succ i =>
        have hx : p x = false := h3 0 (by omega) x (by simp)
        have h1' : xs[i]? = some a := by simpa using h1
        have := ih i ⟨h1', h2, fun j hj b hb => h3 (j + 1) (by omega) b (by simpa using hb)⟩
        simp [dl_list_find, hx, this]

/-- C19 (lookup by leading characters): for a C string `name`,
`find_rate_upgrade_group (name)` returns no group exactly when no registered groupname
has `name` as its leading part, and returns the group at position `i` exactly when that
group's name has `name` as its leading part and no group before it in the registry has;
in particular the lookup of "grp" returns the registered group named "grp0", and the
lookup of the empty name returns the first group of every registry that is not empty. -/
theorem find_rate_upgrade_group_leading (groups : List rate_upgrade_group) (name : String)
    (hname : c_string name) :
    (find_rate_upgrade_group groups name = none ↔
      ∀ g ∈ groups, ¬ name.data <+: g.groupname.data) ∧
    (∀ i g, find_rate_upgrade_group groups name = some (i, g) ↔
      groups[i]? = some g ∧ name.data <+: g.groupname.data ∧
        ∀ j, j < i → ∀ g1, groups[j]? = some g1 → ¬ name.data <+: g1.groupname.data) ∧
    find_rate_upgrade_group state_grp0.groups "grp" = some (0, group_grp0) ∧
    (∀ g rest, find_rate_upgrade_group (g :: rest) "" = some (0, g)) := by
  refine ⟨?_, ?_, by decide, ?_⟩
  · rw [find_rate_upgrade_group_eq, dl_list_find_eq_none]
    constructor
    · intro h g hg hpre
      have := h g hg
      rw [(group_matches_iff name g hname).2 hpre] at this
      cases this
    · intro h g hg
      cases hm : group_matches name g with
      | false => rfl
      | true => exact absurd ((group_matches_iff name g hname).1 hm) (h g hg)
  · intro i g
    rw [find_rate_upgrade_group_eq, dl_list_find_iff]
    constructor
    · intro h
      obtain ⟨h1, h2, h3⟩ := h
      refine ⟨h1, (group_matches_iff name g hname).1 h2, ?_⟩
      intro j hj g1 hg1 hpre
      have := h3 j hj g1 hg1
      rw [(group_matches_iff name g1 hname).2 hpre] at this
      cases this
    · intro h
      obtain ⟨h1, h2, h3⟩ := h
      refine ⟨h1, (group_matches_iff name g hname).2 h2, ?_⟩
      intro j hj g1 hg1
      cases hm : group_matches name g1 with
      | false => rfl
      | true => exact absurd ((group_matches_iff name g1 hname).1 hm) (h3 j hj g1 hg1)
  · intro g rest
    simp [find_rate_upgrade_group, dl_list_find, strncmp]

/-- Instance of C19: in the registry "grp0", "grp01" the lookup of "grp01" returns the
second group and the lookup of "grp1" returns none. -/
theorem find_rate_upgrade_group_leading_witness :
    find_rate_upgrade_group state_two_groups.groups "grp01" =
      some (1, { group_grp0 with groupname := "grp01" }) ∧
    find_rate_upgrade_group state_two_groups.groups "grp1" = none :=
  ⟨((find_rate_upgrade_group_leading state_two_groups.groups "grp01" (by decide)).2.1 1
      { group_grp0 with groupname := "grp01" }).2 (by decide),
    (find_rate_upgrade_group_leading state_two_groups.groups "grp1" (by decide)).1.2
      (by decide)⟩

theorem on_connect_groups_frame (env : Env) (s : State) (group : fst_group_info)
    (iface : String) (addr : MacAddr) :
    (fst_rate_upgrade_on_connect env s group iface addr).st.groups = s.groups ∨
    ∃ gi g, find_rate_upgrade_group s.groups group.id = some (gi, g) ∧
      (fst_rate_upgrade_on_connect env s group iface addr).st.groups =
        s.groups.set gi { g with acl_macs := g.acl_macs ++ [addr] } := by
  unfold fst_rate_upgrade_on_connect
  cases hfind : find_rate_upgrade_group s.groups group.id with
  | none => simp
  | some r =>
    obtain ⟨gi, g⟩ := r
    have hget := (find_rate_upgrade_group_some s.groups group.id gi g hfind).1
    by_cases hif : os_strcmp iface.data g.master.data = 0
    · cases hmac : find_rate_upgrade_mac g addr with
      | some p => simp [hif, hmac]
      | none =>
        by_cases hm : env.malloc_mac = true
        · by_cases hp : (update_acl_file env s.files
              { g with acl_macs := g.acl_macs ++ [addr] }).1 = 0
          · cases hd : (dup_connection_loop env g.master addr g.acl_fname 0 g.slaves).2 with
            | some i =>
              left
              simp [hif, hmac, add_rate_upgrade_mac, hm, hp, hd, del_rate_upgrade_mac,
                eraseIdx_append_last, set_self_of_getElem s.groups gi g hget]
            | none =>
              right
              exact ⟨gi, g, rfl, by simp [hif, hmac, add_rate_upgrade_mac, hm, hp, hd]⟩
          · left
            simp [hif, hmac, add_rate_upgrade_mac, hm, hp, del_rate_upgrade_mac,
              eraseIdx_append_last, set_self_of_getElem s.groups gi g hget]
        · simp [hif, hmac, add_rate_upgrade_mac, hm]
    · simp [hif]

theorem on_disconnect_groups_frame (env : Env) (s : State) (group : fst_group_info)
    (iface : String) (addr : MacAddr) :
    (fst_rate_upgrade_on_disconnect env s group iface addr).st.groups = s.groups ∨
    ∃ gi g, find_rate_upgrade_group s.groups group.id = some (gi, g) ∧
      (fst_rate_upgrade_on_disconnect env s group iface addr).st.groups =
        s.groups.set gi { g with acl_macs := g.acl_macs.erase addr } := by
  unfold fst_rate_upgrade_on_disconnect
  cases hfind : find_rate_upgrade_group s.groups group.id with
  | none => simp
  | some r =>
    obtain ⟨gi, g⟩ := r
    by_cases hif : os_strcmp iface.data g.master.data = 0
    · cases hmac : find_rate_upgrade_mac g addr with
      | none => simp [hif, hmac]
      | some p =>
        right
        have herase := find_rate_upgrade_mac_some g addr p hmac
        refine ⟨gi, g, rfl, ?_⟩
        simp only [hif, hmac, ne_eq, not_true_eq_false, if_false, del_rate_upgrade_mac, herase]
        split <;> rfl
    · simp [hif]

theorem admission_frame_refl (groups : List rate_upgrade_group)
    (found : Option (Nat × rate_upgrade_group)) (addr : MacAddr) :
    admission_frame groups groups found addr := by
  refine ⟨rfl, ?_⟩
  intro i g hg
  exact ⟨g, hg, rfl, rfl, rfl, rfl, rfl, fun _ => rfl, Or.inl rfl⟩

theorem admission_frame_set (groups : List rate_upgrade_group) (gi : Nat)
    (g : rate_upgrade_group) (macs : List MacAddr) (addr : MacAddr)
    (hget : groups[gi]? = some g)
    (hmacs : macs = g.acl_macs ∨ macs = g.acl_macs ++ [addr] ∨ macs = g.acl_macs.erase addr) :
    admission_frame groups (groups.set gi { g with acl_macs := macs }) (some (gi, g)) addr := by
  refine ⟨by simp, ?_⟩
  intro i g0 hg0
  by_cases hi : i = gi
  · subst hi
    rw [hget] at hg0
    cases hg0
    refine ⟨{ g with acl_macs := macs }, getElem_set_self_of_getElem _ _ _ _ hget, rfl, rfl,
      rfl, rfl, rfl, ?_, hmacs⟩
    intro hne
    exact absurd rfl (hne g)
  · refine ⟨g0, ?_, rfl, rfl, rfl, rfl, rfl, fun _ => rfl, Or.inl rfl⟩
    rw [List.getElem?_set_ne (fun e => hi e.symm)]
    exact hg0

/-- C20 (frame of the admission operations): in every state and for all arguments, on
success and on failure, `fst_rate_upgrade_on_connect` and `fst_rate_upgrade_on_disconnect`
leave the list of groups and its order unchanged, leave the groupname, master, slaves,
slave count and ACL filename of every group unchanged, and leave the Entry Store of every
group other than the one returned by the lookup unchanged; the Entry Store of the
looked-up group is the old one, the old one with the given MAC added at the tail, or the
old one with the given MAC removed. -/
theorem admission_frame_holds (env : Env) (s : State) (group : fst_group_info)
    (iface : String) (addr : MacAddr) :
    admission_frame s.groups (fst_rate_upgrade_on_connect env s group iface addr).st.groups
      (find_rate_upgrade_group s.groups group.id) addr ∧
    admission_frame s.groups (fst_rate_upgrade_on_disconnect env s group iface addr).st.groups
      (find_rate_upgrade_group s.groups group.id) addr := by
  constructor
  · rcases on_connect_groups_frame env s group iface addr with h | ⟨gi, g, hfind, h⟩
    · rw [h]
      exact admission_frame_refl _ _ _
    · rw [h, hfind]
      exact admission_frame_set s.groups gi g _ addr
        (find_rate_upgrade_group_some s.groups group.id gi g hfind).1 (Or.inr (Or.inl rfl))
  · rcases on_disconnect_groups_frame env s group iface addr with h | ⟨gi, g, hfind, h⟩
    · rw [h]
      exact admission_frame_refl _ _ _
    · rw [h, hfind]
      exact admission_frame_set s.groups gi g _ addr
        (find_rate_upgrade_group_some s.groups group.id gi g hfind).1 (Or.inr (Or.inr rfl))

/-! ## ACL file fidelity over sequences of calls (C3) -/

end FstRateUpg
